import Mathlib

/-!
Shallow embedding of the aiorethink core (value types, validation chains,
field descriptors, document persistence, lazy values, change feeds), translated
from the Python sources under aiorethink/.  Python values are modelled by the
deep universe `Val` (with `Val.vnone` standing for Python None), exceptions by
`Except PErr`, and Python dicts by association lists that preserve insertion
order (updating an existing key keeps its position, as CPython dicts do).
-/

set_option autoImplicit false

namespace Aiorethink

/-- Exception taxonomy of aiorethink/errors.py plus the builtin Python
exceptions that the embedded code can raise. -/
inductive PErr where
  | validationError
  | stopValidation
  | illegalSpecError
  | alreadyExistsError
  | notFoundError
  | notLoadedError
  | illegalValidatorError
  | typeError
  | attributeError
  | valueError
deriving DecidableEq, Repr

/-- Universe of Python runtime values handled by the library: None, ints
(with bool as an int subtype kept separate), strings, the native containers,
namedtuples (a list of field-name/value slots in declaration order) and
LazyValue instances (values_and_valuetypes/lazy.py: attributes _loaded,
_val_cached, _val_db). -/
inductive Val where
  | vnone
  | vint (n : Int)
  | vbool (b : Bool)
  | vstr (s : String)
  | vtuple (xs : List Val)
  | vlist (xs : List Val)
  | vset (xs : List Val)
  | vdict (kvs : List (Val × Val))
  | vntuple (flds : List (String × Val))
  | vlazy (loaded : Bool) (valCached : Val) (valDb : Val)

mutual

/-- Python structural equality (the == used by the library) on `Val`. -/
def beqVal : Val → Val → Bool
  | Val.vnone, Val.vnone => true
  | Val.vint n, Val.vint m => n == m
  | Val.vbool a, Val.vbool b => a == b
  | Val.vstr s, Val.vstr t => s == t
  | Val.vtuple xs, Val.vtuple ys => beqValList xs ys
  | Val.vlist xs, Val.vlist ys => beqValList xs ys
  | Val.vset xs, Val.vset ys => beqValList xs ys
  | Val.vdict a, Val.vdict b => beqValPairs a b
  | Val.vntuple a, Val.vntuple b => beqValNamed a b
  | Val.vlazy l c d, Val.vlazy l2 c2 d2 => l == l2 && beqVal c c2 && beqVal d d2
  | _, _ => false
termination_by structural a _ => a

def beqValList : List Val → List Val → Bool
  | [], [] => true
  | x :: xs, y :: ys => beqVal x y && beqValList xs ys
  | _, _ => false
termination_by structural a _ => a

def beqValPairs : List (Val × Val) → List (Val × Val) → Bool
  | [], [] => true
  | (k, v) :: xs, (k2, v2) :: ys => beqVal k k2 && beqVal v v2 && beqValPairs xs ys
  | _, _ => false
termination_by structural a _ => a

def beqValNamed : List (String × Val) → List (String × Val) → Bool
  | [], [] => true
  | (k, v) :: xs, (k2, v2) :: ys => k == k2 && beqVal v v2 && beqValNamed xs ys
  | _, _ => false
termination_by structural a _ => a

end

instance : BEq Val := ⟨beqVal⟩

namespace Val

/-- isinstance(v, int): Python bools are ints. -/
def isInt : Val → Bool
  | vint _ => true
  | vbool _ => true
  | _ => false

/-- isinstance(v, str). -/
def isStr : Val → Bool
  | vstr _ => true
  | _ => false

/-- isinstance(v, tuple): namedtuples are tuples. -/
def isTuple : Val → Bool
  | vtuple _ => true
  | vntuple _ => true
  | _ => false

/-- isinstance(v, list). -/
def isList : Val → Bool
  | vlist _ => true
  | _ => false

/-- isinstance(v, set). -/
def isSet : Val → Bool
  | vset _ => true
  | _ => false

/-- isinstance(v, dict). -/
def isDict : Val → Bool
  | vdict _ => true
  | _ => false

/-- isinstance(v, tuple_type) for a namedtuple type with the given field
names: the value must be a namedtuple instance with exactly those slots. -/
def isNtuple (names : List String) : Val → Bool
  | vntuple flds => flds.map Prod.fst == names
  | _ => false

/-- isinstance(v, LazyValue). -/
def isLazy : Val → Bool
  | vlazy _ _ _ => true
  | _ => false

end Val

/-- Python iteration (for e in v): defined for the container values; iterating
a namedtuple yields its slot values; anything else (in particular None)
raises TypeError. -/
def iterElems : Val → Except PErr (List Val)
  | Val.vtuple xs => Except.ok xs
  | Val.vlist xs => Except.ok xs
  | Val.vset xs => Except.ok xs
  | Val.vntuple flds => Except.ok (flds.map Prod.snd)
  | Val.vdict kvs => Except.ok (kvs.map Prod.fst)
  | _ => Except.error PErr.typeError

/-- v.items() for a dict value; AttributeError on anything else (in
particular on None). -/
def dictItems : Val → Except PErr (List (Val × Val))
  | Val.vdict kvs => Except.ok kvs
  | _ => Except.error PErr.attributeError

/-- Lookup in an insertion-ordered Python dict modelled as an assoc list:
first matching key wins (keys are unique in a real dict). -/
def lookupKey (n : String) : List (String × Val) → Option Val
  | [] => none
  | (k, v) :: rest => if k = n then some v else lookupKey n rest

/-- d[n] = v on an insertion-ordered Python dict: an existing key keeps its
position, a new key is appended. -/
def setKey : List (String × Val) → String → Val → List (String × Val)
  | [], n, v => [(n, v)]
  | (k, w) :: rest, n, v =>
      if k = n then (n, v) :: rest else (k, w) :: setKey rest n v

/-- d.pop(n) / del d[n]: removes the first (only) entry with the key. -/
def eraseKey : List (String × Val) → String → List (String × Val)
  | [], _ => []
  | (k, w) :: rest, n => if k = n then rest else (k, w) :: eraseKey rest n

/-- a.update(b) on Python dicts: entries of b overwrite entries of a in
place, new keys are appended in b's order. -/
def dictUpdate (a b : List (String × Val)) : List (String × Val) :=
  b.foldl (fun acc kv => setKey acc kv.1 kv.2) a

/-- The set(...) constructor applied to an iterable: keeps the first
occurrence of equal elements (adding an equal element to a set is a no-op). -/
def pyDedupAux (seen : List Val) : List Val → List Val
  | [] => []
  | x :: xs =>
      if seen.any (fun y => y == x) then pyDedupAux seen xs
      else x :: pyDedupAux (seen ++ [x]) xs

def pyDedup (l : List Val) : List Val := pyDedupAux [] l

/-- Insertion of one key/value pair into a Python dict under construction:
a duplicate key overwrites the earlier entry in place, a new key is
appended. -/
def mkDictIns (acc : List (Val × Val)) (kv : Val × Val) : List (Val × Val) :=
  if acc.any (fun e => e.1 == kv.1) then
    acc.map (fun e => if e.1 == kv.1 then (e.1, kv.2) else e)
  else acc ++ [kv]

/-- A dict built from an iterable of key/value pairs (dict comprehension). -/
def mkDict (ps : List (Val × Val)) : List (Val × Val) :=
  ps.foldl mkDictIns []

/-- Pairwise distinctness of a list of values (Bool-valued). -/
def distinctVals : List Val → Bool
  | [] => true
  | x :: xs => xs.all (fun y => !(y == x)) && distinctVals xs

/-- Pairwise distinctness of a list of strings (Bool-valued). -/
def distinctStrs : List String → Bool
  | [] => true
  | x :: xs => xs.all (fun y => !(y == x)) && distinctStrs xs

mutual

/-- Structural well-formedness every value built by the Python runtime has:
set elements are pairwise distinct, dict keys are distinct, namedtuple field
names are distinct (collections.namedtuple rejects duplicates), recursively. -/
def wfVal : Val → Bool
  | Val.vnone => true
  | Val.vint _ => true
  | Val.vbool _ => true
  | Val.vstr _ => true
  | Val.vtuple xs => wfValList xs
  | Val.vlist xs => wfValList xs
  | Val.vset xs => wfValList xs && distinctVals xs
  | Val.vdict kvs => wfValPairs kvs && distinctVals (kvs.map Prod.fst)
  | Val.vntuple flds => wfValNamed flds && distinctStrs (flds.map Prod.fst)
  | Val.vlazy _ c d => wfVal c && wfVal d
termination_by structural v => v

def wfValList : List Val → Bool
  | [] => true
  | x :: xs => wfVal x && wfValList xs
termination_by structural l => l

def wfValPairs : List (Val × Val) → Bool
  | [] => true
  | (k, v) :: rest => wfVal k && wfVal v && wfValPairs rest
termination_by structural l => l

def wfValNamed : List (String × Val) → Bool
  | [] => true
  | (_, v) :: rest => wfVal v && wfValNamed rest
termination_by structural l => l

end


mutual

theorem beqVal_iff : (a b : Val) → (beqVal a b = true ↔ a = b)
  | Val.vnone, b => by cases b <;> simp [beqVal]
  | Val.vint n, b => by cases b <;> simp [beqVal]
  | Val.vbool x, b => by cases b <;> simp [beqVal]
  | Val.vstr s, b => by cases b <;> simp [beqVal]
  | Val.vtuple xs, b => by
      cases b <;> try (simp [beqVal])
      case vtuple ys => exact beqValList_iff xs ys
  | Val.vlist xs, b => by
      cases b <;> try (simp [beqVal])
      case vlist ys => exact beqValList_iff xs ys
  | Val.vset xs, b => by
      cases b <;> try (simp [beqVal])
      case vset ys => exact beqValList_iff xs ys
  | Val.vdict a, b => by
      cases b <;> try (simp [beqVal])
      case vdict c => exact beqValPairs_iff a c
  | Val.vntuple a, b => by
      cases b <;> try (simp [beqVal])
      case vntuple c => exact beqValNamed_iff a c
  | Val.vlazy l c d, b => by
      cases b <;> try (simp [beqVal])
      case vlazy l2 c2 d2 =>
        simp [beqVal, Val.vlazy.injEq, Bool.and_eq_true, beqVal_iff c c2,
          beqVal_iff d d2, and_assoc]
termination_by structural a _ => a

theorem beqValList_iff : (xs ys : List Val) → (beqValList xs ys = true ↔ xs = ys)
  | [], [] => by simp [beqValList]
  | [], _ :: _ => by simp [beqValList]
  | _ :: _, [] => by simp [beqValList]
  | x :: xs, y :: ys => by
      simp [beqValList, Bool.and_eq_true, beqVal_iff x y, beqValList_iff xs ys]
termination_by structural a _ => a

theorem beqValPairs_iff : (xs ys : List (Val × Val)) → (beqValPairs xs ys = true ↔ xs = ys)
  | [], [] => by simp [beqValPairs]
  | [], _ :: _ => by simp [beqValPairs]
  | _ :: _, [] => by simp [beqValPairs]
  | (k, v) :: xs, (k2, v2) :: ys => by
      simp [beqValPairs, Bool.and_eq_true, beqVal_iff k k2, beqVal_iff v v2,
        beqValPairs_iff xs ys]
termination_by structural a _ => a

theorem beqValNamed_iff : (xs ys : List (String × Val)) → (beqValNamed xs ys = true ↔ xs = ys)
  | [], [] => by simp [beqValNamed]
  | [], _ :: _ => by simp [beqValNamed]
  | _ :: _, [] => by simp [beqValNamed]
  | (k, v) :: xs, (k2, v2) :: ys => by
      simp [beqValNamed, Bool.and_eq_true, beqVal_iff v v2, beqValNamed_iff xs ys]
termination_by structural a _ => a

end

instance : LawfulBEq Val where
  eq_of_beq h := (beqVal_iff _ _).mp h
  rfl := (beqVal_iff _ _).mpr rfl

instance : DecidableEq Val :=
  fun a b => decidable_of_iff (beqVal a b = true) (beqVal_iff a b)

instance {ε α : Type} [DecidableEq ε] [DecidableEq α] : DecidableEq (Except ε α)
  | Except.error e, Except.error f => decidable_of_iff (e = f) (by simp)
  | Except.error _, Except.ok _ => isFalse (fun h => Except.noConfusion h)
  | Except.ok _, Except.error _ => isFalse (fun h => Except.noConfusion h)
  | Except.ok a, Except.ok b => decidable_of_iff (a = b) (by simp)

/-- Descriptors for the value types shipped with the library
(values_and_valuetypes/): AnyValueType, IntValueType, StringValueType (whose
regex option is left out of the embedding), TupleValueType, ListValueType,
SetValueType, DictValueType, NamedTupleValueType (field names plus the
optional per-slot item_value_types list) and LazyValueType (whose concrete
LazyValue class carries a payload _val_type, modelled as an AnyValueType
instance with the given forbid_none flag).  Each constructor records the
instance's own forbid_none flag; instances are modelled without
extra_validators. -/
inductive VT where
  | anyVT (forbidNone : Bool)
  | intVT (forbidNone : Bool)
  | strVT (maxLength : Option Nat) (forbidNone : Bool)
  | tupleVT (elem : VT) (forbidNone : Bool)
  | listVT (elem : VT) (forbidNone : Bool)
  | setVT (elem : VT) (forbidNone : Bool)
  | dictVT (keyT : VT) (valT : VT) (forbidNone : Bool)
  | ntupleVT (names : List String) (itemTypes : Option (List VT)) (forbidNone : Bool)
  | lazyVT (payloadForbidNone : Bool) (forbidNone : Bool)

/-- AnyValueType._validate (base_types.py): raise ValidationError when the
value is None and forbid_none is set. -/
def anyStep (forbidNone : Bool) (v : Val) : Except PErr Unit :=
  if v == Val.vnone && forbidNone then Except.error PErr.validationError
  else Except.ok ()

/-- TypedValueType._validate (base_types.py): the isinstance check runs only
when the value is not None. -/
def typedStep (check : Val → Bool) (v : Val) : Except PErr Unit :=
  if !(v == Val.vnone) && !(check v) then Except.error PErr.validationError
  else Except.ok ()

/-- len(v): defined for sized Python values, TypeError otherwise. -/
def pyLen : Val → Except PErr Nat
  | Val.vstr s => Except.ok s.length
  | Val.vtuple xs => Except.ok xs.length
  | Val.vlist xs => Except.ok xs.length
  | Val.vset xs => Except.ok xs.length
  | Val.vdict kvs => Except.ok kvs.length
  | Val.vntuple flds => Except.ok flds.length
  | _ => Except.error PErr.typeError

/-- StringValueType._validate's max_length clause (simple_types.py); a
max_length of 0 is falsy in Python and therefore never checked.  The regex
clause of the source is not modelled. -/
def strStep (maxLength : Option Nat) (v : Val) : Except PErr Unit :=
  if v == Val.vnone then Except.ok ()
  else
    match maxLength with
    | none => Except.ok ()
    | some ml =>
        if ml = 0 then Except.ok ()
        else do
          let n ← pyLen v
          if n > ml then Except.error PErr.validationError else Except.ok ()

/-- LazyValueType._validate (values_and_valuetypes/lazy.py): runs
val.validate(val._val_cached), i.e. the payload _val_type's validator chain
(an AnyValueType instance, whose chain is exactly its forbid_none check) on
the cached payload, also when the lazy value has never been loaded. -/
def lazyPayloadStep (payloadForbidNone : Bool) (v : Val) : Except PErr Unit :=
  match v with
  | Val.vlazy _ c _ => anyStep payloadForbidNone c
  | _ => Except.error PErr.attributeError

/-- Run an effectful check over each element, stopping at the first raised
exception (a Python for loop of validate calls). -/
def exceptForEach {α : Type} (f : α → Except PErr Unit) : List α → Except PErr Unit
  | [] => Except.ok ()
  | x :: xs => do
      f x
      exceptForEach f xs

/-- A Python list comprehension: map left to right, first exception wins. -/
def exceptMapList (f : Val → Except PErr Val) : List Val → Except PErr (List Val)
  | [] => Except.ok []
  | x :: xs => do
      let y ← f x
      let ys ← exceptMapList f xs
      Except.ok (y :: ys)

/-- A Python dict comprehension over .items(): convert each key and value
left to right, first exception wins. -/
def exceptMapPairs (fk fv : Val → Except PErr Val) :
    List (Val × Val) → Except PErr (List (Val × Val))
  | [] => Except.ok []
  | (k, v) :: rest => do
      let k2 ← fk k
      let v2 ← fv v
      let rest2 ← exceptMapPairs fk fv rest
      Except.ok ((k2, v2) :: rest2)

mutual

/-- some_value_type.validate(val) for every shipped value type: the
_validate methods collected along the reverse MRO run in order (base class
first), exceptions propagate.  None of the shipped _validate methods raises
StopValidation, so the catch in AnyValueType.validate never fires here. -/
def validateVT : VT → Val → Except PErr Unit
  | VT.anyVT fn, v => anyStep fn v
  | VT.intVT fn, v => do
      anyStep fn v
      typedStep Val.isInt v
  | VT.strVT ml fn, v => do
      anyStep fn v
      typedStep Val.isStr v
      strStep ml v
  | VT.tupleVT e fn, v => do
      anyStep fn v
      typedStep Val.isTuple v
      let xs ← iterElems v
      exceptForEach (validateVT e) xs
  | VT.listVT e fn, v => do
      anyStep fn v
      typedStep Val.isList v
      let xs ← iterElems v
      exceptForEach (validateVT e) xs
  | VT.setVT e fn, v => do
      anyStep fn v
      typedStep Val.isSet v
      let xs ← iterElems v
      exceptForEach (validateVT e) xs
  | VT.dictVT kt vt fn, v => do
      anyStep fn v
      typedStep Val.isDict v
      let kvs ← dictItems v
      exceptForEach (fun kv => do
        validateVT kt kv.1
        validateVT vt kv.2) kvs
  | VT.ntupleVT names its fn, v => do
      anyStep fn v
      typedStep (Val.isNtuple names) v
      match its with
      | none => Except.ok ()
      | some ts => do
          let xs ← iterElems v
          validateZipVT ts xs
  | VT.lazyVT pfn fn, v => do
      anyStep fn v
      typedStep Val.isLazy v
      lazyPayloadStep pfn v
termination_by structural t _ => t

/-- NamedTupleValueType._validate's zip(val, item_value_types) loop. -/
def validateZipVT : List VT → List Val → Except PErr Unit
  | [], _ => Except.ok ()
  | _ :: _, [] => Except.ok ()
  | t :: ts, x :: xs => do
      validateVT t x
      validateZipVT ts xs
termination_by structural l _ => l

end

/-- pyval._asdict() as used by NamedTupleValueType.pyval_to_dbval: the
insertion-ordered mapping from field name to slot value. -/
def asdict : Val → Except PErr Val
  | Val.vntuple flds => Except.ok (Val.vdict (flds.map (fun kv => (Val.vstr kv.1, kv.2))))
  | _ => Except.error PErr.attributeError

/-- pyval.get_dbval() as used by LazyValueType.pyval_to_dbval. -/
def getDbval : Val → Except PErr Val
  | Val.vlazy _ _ d => Except.ok d
  | _ => Except.error PErr.attributeError

/-- tuple_type(**dbval): look up each field name among the keyword
arguments; a missing field or an unexpected key raises TypeError. -/
def kwargLookupAll : List String → List (Val × Val) → Except PErr (List Val)
  | [], _ => Except.ok []
  | n :: ns, kvs =>
      match kvs.find? (fun kv => kv.1 == Val.vstr n) with
      | some kv => do
          let rest ← kwargLookupAll ns kvs
          Except.ok (kv.2 :: rest)
      | none => Except.error PErr.typeError

/-- NamedTupleValueType.dbval_to_pyval's tuple_type(**dbval) call. -/
def ntupleFromKwargs (names : List String) (kvs : List (Val × Val)) : Except PErr Val := do
  let vals ← kwargLookupAll names kvs
  if kvs.all (fun kv => names.any (fun n => kv.1 == Val.vstr n)) then
    Except.ok (Val.vntuple (names.zip vals))
  else Except.error PErr.typeError

/-- pyval_to_dbval of every shipped value type.  AnyValueType (and the
simple typed types, which inherit it) is the identity; the container types
map their elements and represent the container as a DB list/dict, sending
None to None untouched; NamedTupleValueType returns pyval._asdict();
LazyValueType returns pyval.get_dbval(). -/
def pyval_to_dbval : VT → Val → Except PErr Val
  | VT.anyVT _, v => Except.ok v
  | VT.intVT _, v => Except.ok v
  | VT.strVT _ _, v => Except.ok v
  | VT.tupleVT e _, v =>
      if v == Val.vnone then Except.ok Val.vnone
      else do
        let xs ← iterElems v
        let ds ← exceptMapList (pyval_to_dbval e) xs
        Except.ok (Val.vlist ds)
  | VT.listVT e _, v =>
      if v == Val.vnone then Except.ok Val.vnone
      else do
        let xs ← iterElems v
        let ds ← exceptMapList (pyval_to_dbval e) xs
        Except.ok (Val.vlist ds)
  | VT.setVT e _, v =>
      if v == Val.vnone then Except.ok Val.vnone
      else do
        let xs ← iterElems v
        let ds ← exceptMapList (pyval_to_dbval e) xs
        Except.ok (Val.vlist ds)
  | VT.dictVT kt vt _, v =>
      if v == Val.vnone then Except.ok Val.vnone
      else do
        let kvs ← dictItems v
        let ps ← exceptMapPairs (pyval_to_dbval kt) (pyval_to_dbval vt) kvs
        Except.ok (Val.vdict (mkDict ps))
  | VT.ntupleVT _ _ _, v =>
      if v == Val.vnone then Except.ok Val.vnone
      else asdict v
  | VT.lazyVT _ _, v => getDbval v
termination_by structural t _ => t

/-- dbval_to_pyval of every shipped value type.  The container types rebuild
the native container (tuple(...), list(...), set(...), a dict
comprehension), sending None to None; NamedTupleValueType calls
tuple_type(**dbval); LazyValueType calls create_value(val_db = dbval), i.e.
the LazyValue constructor with val_cached = None, which produces a fresh
not-yet-loaded lazy value. -/
def dbval_to_pyval : VT → Val → Except PErr Val
  | VT.anyVT _, v => Except.ok v
  | VT.intVT _, v => Except.ok v
  | VT.strVT _ _, v => Except.ok v
  | VT.tupleVT e _, v =>
      if v == Val.vnone then Except.ok Val.vnone
      else do
        let ds ← iterElems v
        let xs ← exceptMapList (dbval_to_pyval e) ds
        Except.ok (Val.vtuple xs)
  | VT.listVT e _, v =>
      if v == Val.vnone then Except.ok Val.vnone
      else do
        let ds ← iterElems v
        let xs ← exceptMapList (dbval_to_pyval e) ds
        Except.ok (Val.vlist xs)
  | VT.setVT e _, v =>
      if v == Val.vnone then Except.ok Val.vnone
      else do
        let ds ← iterElems v
        let xs ← exceptMapList (dbval_to_pyval e) ds
        Except.ok (Val.vset (pyDedup xs))
  | VT.dictVT kt vt _, v =>
      if v == Val.vnone then Except.ok Val.vnone
      else do
        let kvs ← dictItems v
        let ps ← exceptMapPairs (dbval_to_pyval kt) (dbval_to_pyval vt) kvs
        Except.ok (Val.vdict (mkDict ps))
  | VT.ntupleVT names _ _, v =>
      if v == Val.vnone then Except.ok Val.vnone
      else do
        let kvs ← dictItems v
        ntupleFromKwargs names kvs
  | VT.lazyVT _ _, v => Except.ok (Val.vlazy false Val.vnone v)
termination_by structural t _ => t

/-- The round trip dbval_to_pyval(pyval_to_dbval(v)) of a value type. -/
def roundtripVT (t : VT) (v : Val) : Except PErr Val :=
  (pyval_to_dbval t v).bind (dbval_to_pyval t)

/-- Value-type descriptors that do not involve LazyValueType anywhere their
conversions recurse (NamedTupleValueType's item types take no part in its
conversions, so they are not inspected). -/
def noLazy : VT → Bool
  | VT.anyVT _ => true
  | VT.intVT _ => true
  | VT.strVT _ _ => true
  | VT.tupleVT e _ => noLazy e
  | VT.listVT e _ => noLazy e
  | VT.setVT e _ => noLazy e
  | VT.dictVT kt vt _ => noLazy kt && noLazy vt
  | VT.ntupleVT _ _ _ => true
  | VT.lazyVT _ _ => false

/-- Values whose plain-tuple slots hold plain tuples.  isinstance(v, tuple)
also accepts namedtuples, and a namedtuple fed through TupleValueType's
conversions comes back as the plain tuple of its items: Python's == deems
the two equal (namedtuples compare as tuples) but they are distinct values
of this structural universe, so the structural round-trip statement is
restricted to values satisfying this predicate. -/
def plainTupleShapes : VT → Val → Bool
  | VT.anyVT _, _ => true
  | VT.intVT _, _ => true
  | VT.strVT _ _, _ => true
  | VT.tupleVT e _, v =>
      match v with
      | Val.vtuple xs => xs.all (plainTupleShapes e)
      | Val.vnone => true
      | _ => false
  | VT.listVT e _, v =>
      match v with
      | Val.vlist xs => xs.all (plainTupleShapes e)
      | Val.vnone => true
      | _ => false
  | VT.setVT e _, v =>
      match v with
      | Val.vset xs => xs.all (plainTupleShapes e)
      | Val.vnone => true
      | _ => false
  | VT.dictVT kt vt _, v =>
      match v with
      | Val.vdict kvs => kvs.all (fun kv => plainTupleShapes kt kv.1 && plainTupleShapes vt kv.2)
      | Val.vnone => true
      | _ => false
  | VT.ntupleVT _ _ _, _ => true
  | VT.lazyVT _ _, _ => true
termination_by structural t _ => t


/-- Abstract validator functions for the chain machinery of
Validatable.validate (validatable.py) and AnyValueType.validate
(base_types.py).  The constructors cover the _validate methods defined in
the library (the identity _validate of Validatable, the required-value check
of fields/base.py Field._validate, the isinstance checks of
fields/simple.py TypedField and the max_length check of StringField), plus
the archetypes of user-supplied extra validators: one raising
ValidationError, one raising StopValidation, and one returning a transformed
(constant) value. -/
inductive VFun where
  | idV
  | requiredV (required : Bool)
  | isIntV
  | isStrV
  | strMaxLenV (maxLength : Option Nat)
  | failV
  | stopV
  | constV (c : Val)
deriving DecidableEq

/-- Run one validator in the two-parameter form validator(self, val): it
returns the validated (possibly transformed) value or raises. -/
def applyVFun : VFun → Val → Except PErr Val
  | VFun.idV, v => Except.ok v
  | VFun.requiredV req, v =>
      if req ∧ v = Val.vnone then Except.error PErr.validationError
      else Except.ok v
  | VFun.isIntV, v =>
      if v = Val.vnone then Except.ok v
      else if Val.isInt v then Except.ok v else Except.error PErr.validationError
  | VFun.isStrV, v =>
      if v = Val.vnone then Except.ok v
      else if Val.isStr v then Except.ok v else Except.error PErr.validationError
  | VFun.strMaxLenV ml, v =>
      if v = Val.vnone then Except.ok v
      else
        match ml with
        | none => Except.ok v
        | some m =>
            if m = 0 then Except.ok v
            else (pyLen v).bind
              (fun n => if n > m then Except.error PErr.validationError else Except.ok v)
  | VFun.failV, _ => Except.error PErr.validationError
  | VFun.stopV, _ => Except.error PErr.stopValidation
  | VFun.constV c, _ => Except.ok c

/-- The validator loop of Validatable.validate (validatable.py): validators
run in order, each result becomes the next input, and any exception —
including StopValidation, for which this loop has no handler — propagates to
the caller. -/
def runValidatable : List VFun → Val → Except PErr Val
  | [], v => Except.ok v
  | f :: fs, v =>
      match applyVFun f v with
      | Except.ok w => runValidatable fs w
      | Except.error e => Except.error e

/-- The validator loop of AnyValueType.validate (base_types.py): each
validator runs on the same value (returned values are discarded), a raised
StopValidation ends the cascade with the value accepted, any other exception
propagates. -/
def runVTChain : List VFun → Val → Except PErr Unit
  | [], _ => Except.ok ()
  | f :: fs, v =>
      match applyVFun f v with
      | Except.ok _ => runVTChain fs v
      | Except.error PErr.stopValidation => Except.ok ()
      | Except.error e => Except.error e

/-- _find_methods_in_reverse_mro for the name _validate, with the
class-level _find_methods_cache made explicit: on a miss the computed list
itself is stored in the cache and returned; on a hit the cached list object
(the same mutable Python list) is returned. -/
def findMethods (mro : List VFun) (cache : Option (List VFun)) :
    List VFun × Option (List VFun) :=
  match cache with
  | some ms => (ms, some ms)
  | none => (mro, some mro)

/-- Validatable.validate (validatable.py:60-82) with the class-level cache
explicit.  When the instance carries extra validators,
validators.extend(self._extra_validators) mutates the very list object held
by the cache, so afterwards the class cache contains the extended list.
Returns (result of the run, cache after the call). -/
def validatableValidate (mro : List VFun) (extras : Option (List VFun))
    (cache : Option (List VFun)) (v : Val) :
    Except PErr Val × Option (List VFun) :=
  let found := findMethods mro cache
  match extras with
  | none => (runValidatable found.1 v, found.2)
  | some es => (runValidatable (found.1 ++ es) v, some (found.1 ++ es))

/-- AnyValueType.validate (base_types.py:126-146) with the class-level cache
explicit: same validator resolution, but the list is copied
(validators = validators[:]) before the extras are appended, leaving the
cached list as computed; the loop catches StopValidation. -/
def anyTypeValidate (mro : List VFun) (extras : Option (List VFun))
    (cache : Option (List VFun)) (v : Val) :
    Except PErr Unit × Option (List VFun) :=
  let found := findMethods mro cache
  match extras with
  | none => (runVTChain found.1 v, found.2)
  | some es => (runVTChain (found.1 ++ es) v, found.2)



/-- field.py Field: the value-type-based field descriptor generation.  Only
the members that validation exercises are modelled. -/
structure FieldV where
  val_type : VT
  required : Bool

/-- field.py Field.validate (lines 144-150): a required field with value
None raises ValidationError; otherwise the associated value type's
validate runs on the value. -/
def fieldVValidate (f : FieldV) (v : Val) : Except PErr Unit :=
  if v = Val.vnone ∧ f.required then Except.error PErr.validationError
  else validateVT f.val_type v

/-- The field kinds of the fields/ package that documents declare: the base
Field of fields/base.py, IntField and StringField of fields/simple.py (the
StringField regex option is not modelled). -/
inductive FKind where
  | anyF
  | intF
  | strF (maxLength : Option Nat)
deriving DecidableEq

/-- A declared field (fields/base.py Field) as configured by its
constructor kwargs, with the name assigned at class-construction time. -/
structure FieldSpec where
  fname : String
  dbnameOpt : Option String
  required : Bool
  primaryKey : Bool
  defaultVal : Val
  kind : FKind
deriving DecidableEq

/-- Field.dbname: self._dbname or self._name (Python or, so an empty string
falls back to the field name). -/
def FieldSpec.dbname (f : FieldSpec) : String :=
  match f.dbnameOpt with
  | some s => if s = "" then f.fname else s
  | none => f.fname

/-- The resolved reverse-MRO _validate chain a field of the given kind runs
under Validatable.validate: Validatable._validate first, then
Field._validate (the required check), then the subclass checks. -/
def fieldChain (f : FieldSpec) : List VFun :=
  match f.kind with
  | FKind.anyF => [VFun.idV, VFun.requiredV f.required]
  | FKind.intF => [VFun.idV, VFun.requiredV f.required, VFun.isIntV]
  | FKind.strF ml =>
      [VFun.idV, VFun.requiredV f.required, VFun.isStrV, VFun.strMaxLenV ml]

/-- A Document class: its declared Field objects in the iteration order of
_declared_fields_objects (document.py _map_declared_fields).  Fields carry
no instance-level extra validators in this model. -/
structure DocClass where
  fields : List FieldSpec
deriving DecidableEq

def DocClass.findField (dc : DocClass) (n : String) : Option FieldSpec :=
  dc.fields.find? (fun f => f.fname == n)

/-- Document.has_field_attr: the name denotes a declared field. -/
def DocClass.hasFieldAttr (dc : DocClass) (n : String) : Bool :=
  (dc.findField n).isSome

/-- The primary key field resolved at class-construction time
(document.py _map_declared_fields guarantees there is exactly one). -/
def DocClass.pkField (dc : DocClass) : Option FieldSpec :=
  dc.fields.find? (fun f => f.primaryKey)

/-- The db key a dirty field name contributes to an update dict: a declared
field's dbname, an undeclared field's own name. -/
def dbKeyOf (dc : DocClass) (n : String) : String :=
  match dc.findField n with
  | some f => f.dbname
  | none => n

/-- Per-instance state of a Document (document.py __init__):
_declared_fields_values, _updated_fields (a dict with None values, i.e. an
insertion-ordered set of names), _undeclared_fields, and _stored_in_db. -/
structure DocInst where
  declaredValues : List (String × Val)
  updatedFields : List String
  undeclaredFields : List (String × Val)
  storedInDb : Bool
deriving DecidableEq

/-- Document.mark_field_updated: self._updated_fields[name] = None; setting
an existing dict key keeps its position. -/
def markFieldUpdated (u : List String) (n : String) : List String :=
  if n ∈ u then u else u ++ [n]

/-- Field.__get__ via _get_value (fields/base.py:97-103): the stored value
or the field's default. -/
def fieldGetValue (f : FieldSpec) (d : DocInst) : Val :=
  (lookupKey f.fname d.declaredValues).getD f.defaultVal

/-- Field.__set__ (fields/base.py:105-112): store the value, and mark the
field dirty unless mark_updated is suppressed. -/
def fieldSetValue (f : FieldSpec) (d : DocInst) (v : Val) (markUpdated : Bool) : DocInst :=
  let d2 := { d with declaredValues := setKey d.declaredValues f.fname v }
  if markUpdated then
    { d2 with updatedFields := markFieldUpdated d2.updatedFields f.fname }
  else d2

/-- Field.__delete__ (fields/base.py:114-118, identically field.py:117-120):
only when the container stores a value for the field, remove it and mark
the field dirty; otherwise nothing happens at all. -/
def fieldDelete (fname : String) (d : DocInst) : DocInst :=
  if (lookupKey fname d.declaredValues).isSome then
    { d with
      declaredValues := eraseKey d.declaredValues fname,
      updatedFields := markFieldUpdated d.updatedFields fname }
  else d

/-- Document.validate_field (document.py:597-614): read the stored value or
the field's default, run the field's validator chain, and store the
validated value back when the field had a stored value; ValueError when the
name is not a declared field. -/
def validateField (dc : DocClass) (d : DocInst) (n : String) : DocInst × Except PErr Unit :=
  match dc.findField n with
  | none => (d, Except.error PErr.valueError)
  | some f =>
      let v := (lookupKey n d.declaredValues).getD f.defaultVal
      match runValidatable (fieldChain f) v with
      | Except.error e => (d, Except.error e)
      | Except.ok w =>
          if (lookupKey n d.declaredValues).isSome then
            ({ d with declaredValues := setKey d.declaredValues n w }, Except.ok ())
          else (d, Except.ok ())

/-- Document._validate (document.py:617-623): validate every updated field
that is a declared field, in dirty-set order; the first exception aborts. -/
def docValidateFields (dc : DocClass) : List String → DocInst → DocInst × Except PErr Unit
  | [], d => (d, Except.ok ())
  | n :: ns, d =>
      if dc.hasFieldAttr n then
        match validateField dc d n with
        | (d2, Except.ok _) => docValidateFields dc ns d2
        | (d2, Except.error e) => (d2, Except.error e)
      else docValidateFields dc ns d

/-- Document.validate() via Validatable.validate: for an
extra-validator-free document class the only effective chain member is
Document._validate above (Validatable._validate is the identity). -/
def documentValidate (dc : DocClass) (d : DocInst) : DocInst × Except PErr Unit :=
  docValidateFields dc d.updatedFields d

/-- Field._do_convert_to_doc (fields/base.py:125-128): read the value,
validate it keeping the returned value, and convert with _convert_to_doc —
the identity for these field kinds. -/
def doConvertToDoc (f : FieldSpec) (d : DocInst) : Except PErr Val :=
  runValidatable (fieldChain f) (fieldGetValue f d)

/-- The update_dict assembly of Document._update_in_db
(document.py:322-337): a declared dirty field enters under its db name with
its converted value; an undeclared dirty field enters raw, with None when
it was deleted from _undeclared_fields. -/
def buildUpdateDict (dc : DocClass) (d : DocInst) :
    List String → Except PErr (List (String × Val))
  | [] => Except.ok []
  | n :: ns =>
      match dc.findField n with
      | some f => do
          let w ← doConvertToDoc f d
          let rest ← buildUpdateDict dc d ns
          Except.ok ((f.dbname, w) :: rest)
      | none => do
          let rest ← buildUpdateDict dc d ns
          Except.ok ((n, (lookupKey n d.undeclaredFields).getD Val.vnone) :: rest)

/-- Document._update_in_db (document.py:314-343), returning the new
document state and the update dictionary sent to the store (None when the
early return for an empty dirty set fires and no query runs).  The query
runs only after validation and dict assembly succeeded, so an exception
means no write was issued. -/
def updateInDb (dc : DocClass) (d : DocInst) :
    DocInst × Except PErr (Option (List (String × Val))) :=
  if d.updatedFields.isEmpty then (d, Except.ok none)
  else
    match documentValidate dc d with
    | (d1, Except.error e) => (d1, Except.error e)
    | (d1, Except.ok _) =>
        match buildUpdateDict dc d1 d1.updatedFields with
        | Except.error e => (d1, Except.error e)
        | Except.ok ud => ({ d1 with updatedFields := [] }, Except.ok (some ud))

/-- The declared-fields part of the insert_dict assembly of
Document._insert_into_db (document.py:351-359): every declared field under
its db name with its converted value, except a primary key whose current
value (stored or default) is None — that one is omitted so the store can
generate a key. -/
def buildInsertFields (d : DocInst) : List FieldSpec → Except PErr (List (String × Val))
  | [] => Except.ok []
  | f :: fs =>
      if f.primaryKey ∧ fieldGetValue f d = Val.vnone then buildInsertFields d fs
      else do
        let w ← doConvertToDoc f d
        let rest ← buildInsertFields d fs
        Except.ok ((f.dbname, w) :: rest)

/-- insert_dict: the declared part overlaid with the undeclared fields
(document.py:360 insert_dict.update(self._undeclared_fields)). -/
def buildInsertDict (dc : DocClass) (d : DocInst) : Except PErr (List (String × Val)) :=
  (buildInsertFields d dc.fields).map (fun ds => dictUpdate ds d.undeclaredFields)

/-- Document._insert_into_db (document.py:345-374).  genKey stands for the
key the external store would generate; per the store's contract the insert
result carries generated_keys exactly when the inserted document lacks its
primary key field, in which case pkey._store_from_doc writes the generated
key back into the local field without dirty-marking; _stored_in_db becomes
True.  On success the returned dictionary is the inserted document. -/
def insertIntoDb (dc : DocClass) (d : DocInst) (genKey : Val) :
    DocInst × Except PErr (List (String × Val)) :=
  match documentValidate dc d with
  | (d1, Except.error e) => (d1, Except.error e)
  | (d1, Except.ok _) =>
      match buildInsertDict dc d1 with
      | Except.error e => (d1, Except.error e)
      | Except.ok idict =>
          let d2 := { d1 with updatedFields := [] }
          let d3 :=
            match dc.pkField with
            | some pf =>
                if pf.dbname ∈ idict.map Prod.fst then d2
                else fieldSetValue pf d2 genKey false
            | none => d2
          ({ d3 with storedInDb := true }, Except.ok idict)

/-- The write a save() issued: an insert of a whole document or an update
restricted to dirty fields (None when the empty-dirty early return fired). -/
inductive SaveRes where
  | inserted (idict : List (String × Val))
  | updated (ud : Option (List (String × Val)))
deriving DecidableEq

/-- Document.save (document.py:307-312): update when already stored,
insert otherwise. -/
def docSave (dc : DocClass) (d : DocInst) (genKey : Val) : DocInst × Except PErr SaveRes :=
  if d.storedInDb then
    match updateInDb dc d with
    | (d2, Except.ok r) => (d2, Except.ok (SaveRes.updated r))
    | (d2, Except.error e) => (d2, Except.error e)
  else
    match insertIntoDb dc d genKey with
    | (d2, Except.ok r) => (d2, Except.ok (SaveRes.inserted r))
    | (d2, Except.error e) => (d2, Except.error e)

/-- fields/lazy.py LazyField.Value: the loaded flag, the cached
python-world value and the db-world representation (the owner references
are dropped; a concrete subclass's Value._convert_to_doc override is passed
in as a function where needed). -/
structure LFValue where
  loaded : Bool
  valCached : Val
  valDoc : Val
deriving DecidableEq

/-- LazyField.Value.set(new_val, mark_updated = False)
(fields/lazy.py:115-123), owner bookkeeping aside: cache the value, mark
loaded, refresh the db-world form via the subclass's _convert_to_doc. -/
def lfSet (conv : Val → Val) (newVal : Val) : LFValue :=
  { loaded := true, valCached := newVal, valDoc := conv newVal }

/-- LazyField.validate (fields/lazy.py:187-195): an unloaded Value is
returned untouched, no validator runs; for a loaded Value the field's
validator chain (super().validate) runs on the cached payload, and when it
returns a different value, set(validated_val, False) stores the transformed
result back in place, without dirty-marking. -/
def lazyFieldValidate (chain : List VFun) (conv : Val → Val) (v : LFValue) :
    Except PErr LFValue :=
  if v.loaded then
    match runValidatable chain v.valCached with
    | Except.error e => Except.error e
    | Except.ok w =>
        if w = v.valCached then Except.ok v
        else Except.ok (lfSet conv w)
  else Except.ok v

/-- ChangesAsyncMap.__anext__ (db.py:221-231): loop over the underlying
changefeed, skipping every message without a new_val key; the first message
carrying one yields (mapper(message[new_val]), message) together with the
rest of the stream; when the underlying stream ends first, the iteration
ends (StopAsyncIteration), and only then. -/
def changesAnext (mapper : Val → Val) :
    List (List (String × Val)) →
      Option ((Val × List (String × Val)) × List (List (String × Val)))
  | [] => none
  | m :: rest =>
      match lookupKey "new_val" m with
      | some nv => some ((mapper nv, m), rest)
      | none => changesAnext mapper rest

/-- The item sequence an async-for over the ChangesAsyncMap yields on a
stream that ends. -/
def changesIterate (mapper : Val → Val) :
    List (List (String × Val)) → List (Val × List (String × Val))
  | [] => []
  | m :: rest =>
      match lookupKey "new_val" m with
      | some nv => (mapper nv, m) :: changesIterate mapper rest
      | none => changesIterate mapper rest


theorem exceptBind_ok {α β : Type} {x : Except PErr α} {f : α → Except PErr β} {b : β} :
    (x >>= f) = Except.ok b ↔ ∃ a, x = Except.ok a ∧ f a = Except.ok b := by
  cases x <;> simp [Bind.bind, Except.bind]

theorem exceptForEach_ok {α : Type} {f : α → Except PErr Unit} :
    ∀ {xs : List α}, exceptForEach f xs = Except.ok () → ∀ x ∈ xs, f x = Except.ok () := by
  intro xs
  induction xs with
  | nil => intro _ y hy; cases hy
  | cons x xs ih =>
      intro h y hy
      rw [exceptForEach, exceptBind_ok] at h
      obtain ⟨a, h1, h2⟩ := h
      rcases List.mem_cons.mp hy with rfl | hmem
      · exact h1
      · exact ih h2 y hmem

theorem wfValList_mem : ∀ {xs : List Val}, wfValList xs = true → ∀ x ∈ xs, wfVal x = true := by
  intro xs
  induction xs with
  | nil => intro _ y hy; cases hy
  | cons x xs ih =>
      intro h y hy
      rw [wfValList, Bool.and_eq_true] at h
      rcases List.mem_cons.mp hy with rfl | hmem
      · exact h.1
      · exact ih h.2 y hmem

theorem wfValPairs_mem : ∀ {kvs : List (Val × Val)}, wfValPairs kvs = true →
    ∀ kv ∈ kvs, wfVal kv.1 = true ∧ wfVal kv.2 = true := by
  intro kvs
  induction kvs with
  | nil => intro _ y hy; cases hy
  | cons kv kvs ih =>
      intro h y hy
      obtain ⟨k, v⟩ := kv
      rw [wfValPairs] at h
      simp only [Bool.and_eq_true] at h
      rcases List.mem_cons.mp hy with rfl | hmem
      · exact ⟨h.1.1, h.1.2⟩
      · exact ih h.2 y hmem

theorem distinctVals_iff : ∀ (xs : List Val), distinctVals xs = true ↔ xs.Nodup := by
  intro xs
  induction xs with
  | nil => simp [distinctVals]
  | cons x xs ih =>
      rw [distinctVals, Bool.and_eq_true, ih, List.nodup_cons]
      simp only [List.all_eq_true, Bool.not_eq_true', beq_eq_false_iff_ne]
      constructor
      · rintro ⟨h1, h2⟩
        exact ⟨fun hx => h1 x hx rfl, h2⟩
      · rintro ⟨h1, h2⟩
        exact ⟨fun y hy hyx => h1 (hyx ▸ hy), h2⟩

theorem distinctStrs_iff : ∀ (xs : List String), distinctStrs xs = true ↔ xs.Nodup := by
  intro xs
  induction xs with
  | nil => simp [distinctStrs]
  | cons x xs ih =>
      rw [distinctStrs, Bool.and_eq_true, ih, List.nodup_cons]
      simp only [List.all_eq_true, Bool.not_eq_true', beq_eq_false_iff_ne]
      constructor
      · rintro ⟨h1, h2⟩
        exact ⟨fun hx => h1 x hx rfl, h2⟩
      · rintro ⟨h1, h2⟩
        exact ⟨fun y hy hyx => h1 (hyx ▸ hy), h2⟩

theorem pyDedupAux_eq : ∀ (xs : List Val) (seen : List Val),
    (∀ x ∈ xs, x ∉ seen) → xs.Nodup → pyDedupAux seen xs = xs := by
  intro xs
  induction xs with
  | nil => intro seen _ _; rfl
  | cons x xs ih =>
      intro seen hs hn
      have hx : (seen.any (fun y => y == x)) = false := by
        rw [List.any_eq_false]
        intro y hy
        simp only [Bool.not_eq_true, beq_eq_false_iff_ne]
        intro hyx
        exact hs x (List.mem_cons_self x xs) (hyx ▸ hy)
      rw [pyDedupAux, hx]
      simp only [Bool.false_eq_true, if_false]
      rw [ih (seen ++ [x]) ?h1 (List.Nodup.of_cons hn)]
      intro z hz
      rw [List.mem_append, List.mem_singleton]
      rintro (hz2 | rfl)
      · exact hs z (List.mem_cons_of_mem x hz) hz2
      · exact (List.nodup_cons.mp hn).1 hz

theorem pyDedup_eq_self (xs : List Val) (h : xs.Nodup) : pyDedup xs = xs :=
  pyDedupAux_eq xs [] (fun x _ hx => (List.not_mem_nil x) hx) h

theorem foldl_mkDictIns : ∀ (ps : List (Val × Val)) (acc : List (Val × Val)),
    (∀ p ∈ ps, ∀ q ∈ acc, q.1 ≠ p.1) → (ps.map Prod.fst).Nodup →
    ps.foldl mkDictIns acc = acc ++ ps := by
  intro ps
  induction ps with
  | nil => intro acc _ _; simp
  | cons p ps ih =>
      intro acc hcross hnd
      have hany : (acc.any (fun e => e.1 == p.1)) = false := by
        rw [List.any_eq_false]
        intro q hq
        simp only [Bool.not_eq_true, beq_eq_false_iff_ne]
        exact hcross p (List.mem_cons_self p ps) q hq
      have hc : ∀ x ∈ ps, ∀ q ∈ acc ++ [p], q.1 ≠ x.1 := by
        intro x hx q hq
        rcases List.mem_append.mp hq with hq2 | hq3
        · exact hcross x (List.mem_cons_of_mem p hx) q hq2
        · have hnp : p.1 ∉ ps.map Prod.fst := (List.nodup_cons.mp (by simpa using hnd)).1
          rw [List.mem_singleton] at hq3
          rw [hq3]
          intro hpx
          exact hnp (hpx ▸ List.mem_map_of_mem Prod.fst hx)
      have hn : (ps.map Prod.fst).Nodup := (List.nodup_cons.mp (by simpa using hnd)).2
      rw [List.foldl_cons, mkDictIns, hany]
      simp only [Bool.false_eq_true, if_false]
      rw [ih (acc ++ [p]) hc hn]
      simp

theorem mkDict_eq_self (ps : List (Val × Val)) (h : (ps.map Prod.fst).Nodup) :
    mkDict ps = ps := by
  rw [mkDict, foldl_mkDictIns ps [] (fun p _ q hq => absurd hq (List.not_mem_nil q)) h]
  simp



theorem roundtripList (f g : Val → Except PErr Val) :
    ∀ (xs : List Val), (∀ x ∈ xs, ∃ d, f x = Except.ok d ∧ g d = Except.ok x) →
    ∃ ds, exceptMapList f xs = Except.ok ds ∧ exceptMapList g ds = Except.ok xs := by
  intro xs
  induction xs with
  | nil => intro _; exact ⟨[], rfl, rfl⟩
  | cons x xs ih =>
      intro h
      obtain ⟨d, hd1, hd2⟩ := h x (List.mem_cons_self x xs)
      obtain ⟨ds, h1, h2⟩ := ih (fun y hy => h y (List.mem_cons_of_mem x hy))
      refine ⟨d :: ds, ?_, ?_⟩
      · rw [exceptMapList]
        exact exceptBind_ok.mpr ⟨d, hd1, exceptBind_ok.mpr ⟨ds, h1, rfl⟩⟩
      · rw [exceptMapList]
        exact exceptBind_ok.mpr ⟨x, hd2, exceptBind_ok.mpr ⟨xs, h2, rfl⟩⟩

theorem roundtripPairsD (fk fv gk gv : Val → Except PErr Val) :
    ∀ (kvs : List (Val × Val)),
    (∀ kv ∈ kvs, ∃ d, fk kv.1 = Except.ok d ∧ gk d = Except.ok kv.1) →
    (∀ kv ∈ kvs, ∃ d, fv kv.2 = Except.ok d ∧ gv d = Except.ok kv.2) →
    (kvs.map Prod.fst).Nodup →
    ∃ ps, exceptMapPairs fk fv kvs = Except.ok ps ∧
          exceptMapPairs gk gv ps = Except.ok kvs ∧
          (ps.map Prod.fst).Nodup ∧
          (∀ p ∈ ps, ∃ kv ∈ kvs, gk p.1 = Except.ok kv.1) := by
  intro kvs
  induction kvs with
  | nil =>
      intro _ _ _
      exact ⟨[], rfl, rfl, List.nodup_nil, fun p hp => absurd hp (List.not_mem_nil p)⟩
  | cons kv kvs ih =>
      intro hk hv hnd
      obtain ⟨dk, hk1, hk2⟩ := hk kv (List.mem_cons_self kv kvs)
      obtain ⟨dv, hv1, hv2⟩ := hv kv (List.mem_cons_self kv kvs)
      have hnd2 : kv.1 ∉ kvs.map Prod.fst ∧ (kvs.map Prod.fst).Nodup := by
        rw [List.map_cons, List.nodup_cons] at hnd
        exact hnd
      obtain ⟨ps, h1, h2, h3, h4⟩ := ih
        (fun y hy => hk y (List.mem_cons_of_mem kv hy))
        (fun y hy => hv y (List.mem_cons_of_mem kv hy))
        hnd2.2
      refine ⟨(dk, dv) :: ps, ?_, ?_, ?_, ?_⟩
      · obtain ⟨k0, v0⟩ := kv
        rw [exceptMapPairs]
        exact exceptBind_ok.mpr ⟨dk, hk1, exceptBind_ok.mpr ⟨dv, hv1,
          exceptBind_ok.mpr ⟨ps, h1, rfl⟩⟩⟩
      · obtain ⟨k0, v0⟩ := kv
        rw [exceptMapPairs]
        exact exceptBind_ok.mpr ⟨k0, hk2, exceptBind_ok.mpr ⟨v0, hv2,
          exceptBind_ok.mpr ⟨kvs, h2, rfl⟩⟩⟩
      · rw [List.map_cons, List.nodup_cons]
        refine ⟨?_, h3⟩
        intro hmem
        obtain ⟨p, hp, hpeq⟩ := List.mem_map.mp hmem
        obtain ⟨kv2, hkv2, hg⟩ := h4 p hp
        have hkk : kv.1 = kv2.1 := by
          have := hpeq ▸ hg
          rw [hk2] at this
          exact (Except.ok.injEq _ _).mp this
        exact hnd2.1 (hkk ▸ List.mem_map_of_mem Prod.fst hkv2)
      · intro p hp
        rcases List.mem_cons.mp hp with rfl | hmem
        · exact ⟨kv, List.mem_cons_self kv kvs, hk2⟩
        · obtain ⟨kv2, hkv2, hg⟩ := h4 p hmem
          exact ⟨kv2, List.mem_cons_of_mem kv hkv2, hg⟩

theorem zip_map_fst_snd {α β : Type} : ∀ (l : List (α × β)),
    (l.map Prod.fst).zip (l.map Prod.snd) = l := by
  intro l
  induction l with
  | nil => rfl
  | cons p l ih => simp [List.zip, ih]

theorem kwargLookupAll_skip (p : Val × Val) :
    ∀ (ns : List String) (kvs : List (Val × Val)),
    (∀ n ∈ ns, (p.1 == Val.vstr n) = false) →
    kwargLookupAll ns (p :: kvs) = kwargLookupAll ns kvs := by
  intro ns
  induction ns with
  | nil => intro kvs _; rfl
  | cons n ns ih =>
      intro kvs h
      rw [kwargLookupAll, kwargLookupAll, List.find?_cons_of_neg _ ?hne, ih kvs ?hrest]
      case hne =>
        simp only [Bool.not_eq_true]
        exact h n (List.mem_cons_self n ns)
      case hrest => exact fun m hm => h m (List.mem_cons_of_mem n hm)

theorem kwargLookupAll_asdict : ∀ (flds : List (String × Val)),
    (flds.map Prod.fst).Nodup →
    kwargLookupAll (flds.map Prod.fst) (flds.map (fun kv => (Val.vstr kv.1, kv.2))) =
      Except.ok (flds.map Prod.snd) := by
  intro flds
  induction flds with
  | nil => intro _; rfl
  | cons kv flds ih =>
      intro hnd
      obtain ⟨k, v⟩ := kv
      have hnd2 : k ∉ flds.map Prod.fst ∧ (flds.map Prod.fst).Nodup := by
        rw [List.map_cons, List.nodup_cons] at hnd
        exact hnd
      have hnotin : k ∉ flds.map Prod.fst := hnd2.1
      rw [List.map_cons, List.map_cons, kwargLookupAll]
      rw [List.find?_cons_of_pos _ (by simp)]
      rw [kwargLookupAll_skip (Val.vstr k, v) _ _ ?hskip]
      · rw [ih hnd2.2]
        rfl
      case hskip =>
        intro n hn
        have hkn : k ≠ n := fun h => hnotin (h ▸ hn)
        rw [beq_eq_false_iff_ne]
        intro h
        exact hkn (Val.vstr.inj h)

theorem vnone_beq_vnone : (Val.vnone == Val.vnone) = true := rfl

theorem vtuple_beq_vnone (xs : List Val) : (Val.vtuple xs == Val.vnone) = false := rfl

theorem vlist_beq_vnone (xs : List Val) : (Val.vlist xs == Val.vnone) = false := rfl

theorem vset_beq_vnone (xs : List Val) : (Val.vset xs == Val.vnone) = false := rfl

theorem vdict_beq_vnone (kvs : List (Val × Val)) : (Val.vdict kvs == Val.vnone) = false := rfl

theorem vntuple_beq_vnone (flds : List (String × Val)) :
    (Val.vntuple flds == Val.vnone) = false := rfl

theorem ntupleFromKwargs_asdict (flds : List (String × Val))
    (hd : (flds.map Prod.fst).Nodup) :
    ntupleFromKwargs (flds.map Prod.fst) (flds.map (fun kv => (Val.vstr kv.1, kv.2))) =
      Except.ok (Val.vntuple flds) := by
  rw [ntupleFromKwargs]
  refine exceptBind_ok.mpr ⟨flds.map Prod.snd, kwargLookupAll_asdict flds hd, ?_⟩
  have hcheck : ((flds.map (fun kv => (Val.vstr kv.1, kv.2))).all
      (fun kv => (flds.map Prod.fst).any (fun n => kv.1 == Val.vstr n))) = true := by
    rw [List.all_eq_true]
    intro p hp
    obtain ⟨kv, hkv, hmap⟩ := List.mem_map.mp hp
    rw [List.any_eq_true]
    refine ⟨kv.1, List.mem_map_of_mem Prod.fst hkv, ?_⟩
    rw [← hmap]
    simp
  simp only [hcheck, if_true]
  rw [zip_map_fst_snd]

theorem validate_vnone_tuple (e : VT) (fn : Bool) :
    validateVT (VT.tupleVT e fn) Val.vnone ≠ Except.ok () := by
  cases fn <;>
    simp [validateVT, anyStep, typedStep, iterElems, Val.isTuple, Bind.bind, Except.bind]

theorem validate_vnone_list (e : VT) (fn : Bool) :
    validateVT (VT.listVT e fn) Val.vnone ≠ Except.ok () := by
  cases fn <;>
    simp [validateVT, anyStep, typedStep, iterElems, Val.isList, Bind.bind, Except.bind]

theorem validate_vnone_set (e : VT) (fn : Bool) :
    validateVT (VT.setVT e fn) Val.vnone ≠ Except.ok () := by
  cases fn <;>
    simp [validateVT, anyStep, typedStep, iterElems, Val.isSet, Bind.bind, Except.bind]

theorem validate_vnone_dict (kt vt : VT) (fn : Bool) :
    validateVT (VT.dictVT kt vt fn) Val.vnone ≠ Except.ok () := by
  cases fn <;>
    simp [validateVT, anyStep, typedStep, dictItems, Val.isDict, Bind.bind, Except.bind]

theorem validate_tuple_inv (e : VT) (fn : Bool) (xs : List Val)
    (hval : validateVT (VT.tupleVT e fn) (Val.vtuple xs) = Except.ok ()) :
    exceptForEach (validateVT e) xs = Except.ok () := by
  simp only [validateVT, anyStep, typedStep, iterElems, Val.isTuple,
    vtuple_beq_vnone, Bool.false_and, Bool.not_false, Bool.and_true,
    Bool.true_and, Bool.and_false, if_false, if_true, Bind.bind, Except.bind,
    Bool.false_eq_true, reduceIte] at hval
  exact hval

theorem validate_list_inv (e : VT) (fn : Bool) (xs : List Val)
    (hval : validateVT (VT.listVT e fn) (Val.vlist xs) = Except.ok ()) :
    exceptForEach (validateVT e) xs = Except.ok () := by
  simp only [validateVT, anyStep, typedStep, iterElems, Val.isList,
    vlist_beq_vnone, Bool.false_and, Bool.not_false, Bool.and_true,
    Bool.true_and, Bool.and_false, if_false, if_true, Bind.bind, Except.bind,
    Bool.false_eq_true, reduceIte] at hval
  exact hval

theorem validate_set_inv (e : VT) (fn : Bool) (xs : List Val)
    (hval : validateVT (VT.setVT e fn) (Val.vset xs) = Except.ok ()) :
    exceptForEach (validateVT e) xs = Except.ok () := by
  simp only [validateVT, anyStep, typedStep, iterElems, Val.isSet,
    vset_beq_vnone, Bool.false_and, Bool.not_false, Bool.and_true,
    Bool.true_and, Bool.and_false, if_false, if_true, Bind.bind, Except.bind,
    Bool.false_eq_true, reduceIte] at hval
  exact hval

theorem validate_dict_inv (kt vt : VT) (fn : Bool) (kvs : List (Val × Val))
    (hval : validateVT (VT.dictVT kt vt fn) (Val.vdict kvs) = Except.ok ()) :
    ∀ kv ∈ kvs, validateVT kt kv.1 = Except.ok () ∧ validateVT vt kv.2 = Except.ok () := by
  have hval2 : exceptForEach (fun kv => do
      validateVT kt kv.1
      validateVT vt kv.2) kvs = Except.ok () := by
    simp only [validateVT, anyStep, typedStep, dictItems, Val.isDict,
      vdict_beq_vnone, Bool.false_and, Bool.not_false, Bool.and_true,
      Bool.true_and, Bool.and_false, if_false, if_true, Bind.bind, Except.bind,
      Bool.false_eq_true, reduceIte] at hval
    exact hval
  intro kv hkv
  have h := exceptForEach_ok hval2 kv hkv
  rw [exceptBind_ok] at h
  obtain ⟨⟨⟩, ha1, ha2⟩ := h
  exact ⟨ha1, ha2⟩

theorem typedStep_ok_check {check : Val → Bool} {v : Val}
    (h : typedStep check v = Except.ok ()) (hne : (v == Val.vnone) = false) :
    check v = true := by
  by_contra hn
  rw [Bool.not_eq_true] at hn
  rw [typedStep, hne, hn] at h
  simp at h

theorem validate_ntuple_names (names : List String) (its : Option (List VT)) (fn : Bool)
    (flds : List (String × Val))
    (hval : validateVT (VT.ntupleVT names its fn) (Val.vntuple flds) = Except.ok ()) :
    flds.map Prod.fst = names := by
  have hck : Val.isNtuple names (Val.vntuple flds) = true := by
    cases its with
    | none =>
        rw [show validateVT (VT.ntupleVT names none fn) (Val.vntuple flds) = (do
            anyStep fn (Val.vntuple flds)
            typedStep (Val.isNtuple names) (Val.vntuple flds)
            Except.ok ()) from rfl] at hval
        rw [exceptBind_ok] at hval
        obtain ⟨⟨⟩, h1, hval⟩ := hval
        rw [exceptBind_ok] at hval
        obtain ⟨⟨⟩, h2, hval⟩ := hval
        exact typedStep_ok_check h2 (vntuple_beq_vnone flds)
    | some ts =>
        rw [show validateVT (VT.ntupleVT names (some ts) fn) (Val.vntuple flds) = (do
            anyStep fn (Val.vntuple flds)
            typedStep (Val.isNtuple names) (Val.vntuple flds)
            let xs ← iterElems (Val.vntuple flds)
            validateZipVT ts xs) from rfl] at hval
        rw [exceptBind_ok] at hval
        obtain ⟨⟨⟩, h1, hval⟩ := hval
        rw [exceptBind_ok] at hval
        obtain ⟨⟨⟩, h2, hval⟩ := hval
        exact typedStep_ok_check h2 (vntuple_beq_vnone flds)
  rw [Val.isNtuple] at hck
  exact eq_of_beq hck

theorem validate_ntuple_shapes (names : List String) (its : Option (List VT)) (fn : Bool) :
    ∀ (v : Val), validateVT (VT.ntupleVT names its fn) v = Except.ok () →
    v = Val.vnone ∨ ∃ flds, v = Val.vntuple flds := by
  intro v hval
  cases v with
  | vnone => exact Or.inl rfl
  | vntuple flds => exact Or.inr ⟨flds, rfl⟩
  | vint n =>
      exfalso
      simp [validateVT, anyStep, typedStep, Val.isNtuple, beqVal, Bind.bind,
        Except.bind] at hval
  | vbool b =>
      exfalso
      simp [validateVT, anyStep, typedStep, Val.isNtuple, beqVal, Bind.bind,
        Except.bind] at hval
  | vstr str =>
      exfalso
      simp [validateVT, anyStep, typedStep, Val.isNtuple, beqVal, Bind.bind,
        Except.bind] at hval
  | vtuple xs =>
      exfalso
      simp [validateVT, anyStep, typedStep, Val.isNtuple, beqVal, Bind.bind,
        Except.bind] at hval
  | vlist xs =>
      exfalso
      simp [validateVT, anyStep, typedStep, Val.isNtuple, beqVal, Bind.bind,
        Except.bind] at hval
  | vset xs =>
      exfalso
      simp [validateVT, anyStep, typedStep, Val.isNtuple, beqVal, Bind.bind,
        Except.bind] at hval
  | vdict kvs =>
      exfalso
      simp [validateVT, anyStep, typedStep, Val.isNtuple, beqVal, Bind.bind,
        Except.bind] at hval
  | vlazy l c d =>
      exfalso
      simp [validateVT, anyStep, typedStep, Val.isNtuple, beqVal, Bind.bind,
        Except.bind] at hval

theorem roundtripVT_sound : ∀ (t : VT) (v : Val), noLazy t = true →
    validateVT t v = Except.ok () → wfVal v = true → plainTupleShapes t v = true →
    roundtripVT t v = Except.ok v
  | VT.anyVT _, _, _, _, _, _ => rfl
  | VT.intVT _, _, _, _, _, _ => rfl
  | VT.strVT _ _, _, _, _, _, _ => rfl
  | VT.tupleVT e fn, v, hnl, hval, hwf, hsh => by
      cases v with
      | vnone => exact absurd hval (validate_vnone_tuple e fn)
      | vtuple xs =>
          have hval2 := validate_tuple_inv e fn xs hval
          have hnl2 : noLazy e = true := by simpa [noLazy] using hnl
          have hwf2 : wfValList xs = true := by simpa [wfVal] using hwf
          have hsh2 : ∀ x ∈ xs, plainTupleShapes e x = true := by
            simpa [plainTupleShapes, List.all_eq_true] using hsh
          obtain ⟨ds, h1, h2⟩ := roundtripList (pyval_to_dbval e) (dbval_to_pyval e) xs
            (fun x hx => exceptBind_ok.mp
              (roundtripVT_sound e x hnl2 (exceptForEach_ok hval2 x hx)
                (wfValList_mem hwf2 x hx) (hsh2 x hx)))
          rw [roundtripVT]
          refine exceptBind_ok.mpr ⟨Val.vlist ds, ?_, ?_⟩
          · simp only [pyval_to_dbval, vtuple_beq_vnone, Bool.false_eq_true, reduceIte,
              iterElems, Bind.bind, Except.bind]
            rw [h1]
          · simp only [dbval_to_pyval, vlist_beq_vnone, Bool.false_eq_true, reduceIte,
              iterElems, Bind.bind, Except.bind]
            rw [h2]
      | vntuple flds => exact absurd hsh (by simp [plainTupleShapes])
      | vint n => exact absurd hsh (by simp [plainTupleShapes])
      | vbool b => exact absurd hsh (by simp [plainTupleShapes])
      | vstr str => exact absurd hsh (by simp [plainTupleShapes])
      | vlist xs => exact absurd hsh (by simp [plainTupleShapes])
      | vset xs => exact absurd hsh (by simp [plainTupleShapes])
      | vdict kvs => exact absurd hsh (by simp [plainTupleShapes])
      | vlazy l c d => exact absurd hsh (by simp [plainTupleShapes])
  | VT.listVT e fn, v, hnl, hval, hwf, hsh => by
      cases v with
      | vnone => exact absurd hval (validate_vnone_list e fn)
      | vlist xs =>
          have hval2 := validate_list_inv e fn xs hval
          have hnl2 : noLazy e = true := by simpa [noLazy] using hnl
          have hwf2 : wfValList xs = true := by simpa [wfVal] using hwf
          have hsh2 : ∀ x ∈ xs, plainTupleShapes e x = true := by
            simpa [plainTupleShapes, List.all_eq_true] using hsh
          obtain ⟨ds, h1, h2⟩ := roundtripList (pyval_to_dbval e) (dbval_to_pyval e) xs
            (fun x hx => exceptBind_ok.mp
              (roundtripVT_sound e x hnl2 (exceptForEach_ok hval2 x hx)
                (wfValList_mem hwf2 x hx) (hsh2 x hx)))
          rw [roundtripVT]
          refine exceptBind_ok.mpr ⟨Val.vlist ds, ?_, ?_⟩
          · simp only [pyval_to_dbval, vlist_beq_vnone, Bool.false_eq_true, reduceIte,
              iterElems, Bind.bind, Except.bind]
            rw [h1]
          · simp only [dbval_to_pyval, vlist_beq_vnone, Bool.false_eq_true, reduceIte,
              iterElems, Bind.bind, Except.bind]
            rw [h2]
      | vntuple flds => exact absurd hsh (by simp [plainTupleShapes])
      | vint n => exact absurd hsh (by simp [plainTupleShapes])
      | vbool b => exact absurd hsh (by simp [plainTupleShapes])
      | vstr str => exact absurd hsh (by simp [plainTupleShapes])
      | vtuple xs => exact absurd hsh (by simp [plainTupleShapes])
      | vset xs => exact absurd hsh (by simp [plainTupleShapes])
      | vdict kvs => exact absurd hsh (by simp [plainTupleShapes])
      | vlazy l c d => exact absurd hsh (by simp [plainTupleShapes])
  | VT.setVT e fn, v, hnl, hval, hwf, hsh => by
      cases v with
      | vnone => exact absurd hval (validate_vnone_set e fn)
      | vset xs =>
          have hval2 := validate_set_inv e fn xs hval
          have hnl2 : noLazy e = true := by simpa [noLazy] using hnl
          have hwfl : wfValList xs = true := by
            have h := hwf
            rw [wfVal, Bool.and_eq_true] at h
            exact h.1
          have hnd : xs.Nodup := by
            have h := hwf
            rw [wfVal, Bool.and_eq_true] at h
            exact (distinctVals_iff xs).mp h.2
          have hsh2 : ∀ x ∈ xs, plainTupleShapes e x = true := by
            simpa [plainTupleShapes, List.all_eq_true] using hsh
          obtain ⟨ds, h1, h2⟩ := roundtripList (pyval_to_dbval e) (dbval_to_pyval e) xs
            (fun x hx => exceptBind_ok.mp
              (roundtripVT_sound e x hnl2 (exceptForEach_ok hval2 x hx)
                (wfValList_mem hwfl x hx) (hsh2 x hx)))
          rw [roundtripVT]
          refine exceptBind_ok.mpr ⟨Val.vlist ds, ?_, ?_⟩
          · simp only [pyval_to_dbval, vset_beq_vnone, Bool.false_eq_true, reduceIte,
              iterElems, Bind.bind, Except.bind]
            rw [h1]
          · simp only [dbval_to_pyval, vlist_beq_vnone, Bool.false_eq_true, reduceIte,
              iterElems, Bind.bind, Except.bind]
            rw [h2]
            show Except.ok (Val.vset (pyDedup xs)) = Except.ok (Val.vset xs)
            rw [pyDedup_eq_self xs hnd]
      | vntuple flds => exact absurd hsh (by simp [plainTupleShapes])
      | vint n => exact absurd hsh (by simp [plainTupleShapes])
      | vbool b => exact absurd hsh (by simp [plainTupleShapes])
      | vstr str => exact absurd hsh (by simp [plainTupleShapes])
      | vtuple xs => exact absurd hsh (by simp [plainTupleShapes])
      | vlist xs => exact absurd hsh (by simp [plainTupleShapes])
      | vdict kvs => exact absurd hsh (by simp [plainTupleShapes])
      | vlazy l c d => exact absurd hsh (by simp [plainTupleShapes])
  | VT.dictVT kt vt fn, v, hnl, hval, hwf, hsh => by
      cases v with
      | vnone => exact absurd hval (validate_vnone_dict kt vt fn)
      | vdict kvs =>
          have hpair := validate_dict_inv kt vt fn kvs hval
          have hnlk : noLazy kt = true := by
            have h := hnl
            rw [noLazy, Bool.and_eq_true] at h
            exact h.1
          have hnlv : noLazy vt = true := by
            have h := hnl
            rw [noLazy, Bool.and_eq_true] at h
            exact h.2
          have hwfp : wfValPairs kvs = true := by
            have h := hwf
            rw [wfVal, Bool.and_eq_true] at h
            exact h.1
          have hndk : (kvs.map Prod.fst).Nodup := by
            have h := hwf
            rw [wfVal, Bool.and_eq_true] at h
            exact (distinctVals_iff _).mp h.2
          have hsh2 : ∀ kv ∈ kvs,
              plainTupleShapes kt kv.1 = true ∧ plainTupleShapes vt kv.2 = true := by
            intro kv hkv
            have h := hsh
            rw [plainTupleShapes, List.all_eq_true] at h
            have h2 := h kv hkv
            rw [Bool.and_eq_true] at h2
            exact h2
          obtain ⟨ps, h1, h2, h3, _⟩ := roundtripPairsD
            (pyval_to_dbval kt) (pyval_to_dbval vt) (dbval_to_pyval kt) (dbval_to_pyval vt) kvs
            (fun kv hkv => exceptBind_ok.mp
              (roundtripVT_sound kt kv.1 hnlk (hpair kv hkv).1
                (wfValPairs_mem hwfp kv hkv).1 (hsh2 kv hkv).1))
            (fun kv hkv => exceptBind_ok.mp
              (roundtripVT_sound vt kv.2 hnlv (hpair kv hkv).2
                (wfValPairs_mem hwfp kv hkv).2 (hsh2 kv hkv).2))
            hndk
          rw [roundtripVT]
          refine exceptBind_ok.mpr ⟨Val.vdict ps, ?_, ?_⟩
          · simp only [pyval_to_dbval, vdict_beq_vnone, Bool.false_eq_true, reduceIte,
              dictItems, Bind.bind, Except.bind]
            rw [h1]
            show Except.ok (Val.vdict (mkDict ps)) = Except.ok (Val.vdict ps)
            rw [mkDict_eq_self ps h3]
          · simp only [dbval_to_pyval, vdict_beq_vnone, Bool.false_eq_true, reduceIte,
              dictItems, Bind.bind, Except.bind]
            rw [h2]
            show Except.ok (Val.vdict (mkDict kvs)) = Except.ok (Val.vdict kvs)
            rw [mkDict_eq_self kvs hndk]
      | vntuple flds => exact absurd hsh (by simp [plainTupleShapes])
      | vint n => exact absurd hsh (by simp [plainTupleShapes])
      | vbool b => exact absurd hsh (by simp [plainTupleShapes])
      | vstr str => exact absurd hsh (by simp [plainTupleShapes])
      | vtuple xs => exact absurd hsh (by simp [plainTupleShapes])
      | vlist xs => exact absurd hsh (by simp [plainTupleShapes])
      | vset xs => exact absurd hsh (by simp [plainTupleShapes])
      | vlazy l c d => exact absurd hsh (by simp [plainTupleShapes])
  | VT.ntupleVT names its fn, v, hnl, hval, hwf, hsh => by
      rcases validate_ntuple_shapes names its fn v hval with rfl | ⟨flds, rfl⟩
      · rfl
      · have hnames := validate_ntuple_names names its fn flds hval
        have hnd : (flds.map Prod.fst).Nodup := by
          have h := hwf
          rw [wfVal, Bool.and_eq_true] at h
          exact (distinctStrs_iff _).mp h.2
        rw [roundtripVT]
        refine exceptBind_ok.mpr
          ⟨Val.vdict (flds.map (fun kv => (Val.vstr kv.1, kv.2))), ?_, ?_⟩
        · simp only [pyval_to_dbval, vntuple_beq_vnone, Bool.false_eq_true, reduceIte,
            asdict]
        · simp only [dbval_to_pyval, vdict_beq_vnone, Bool.false_eq_true, reduceIte,
            dictItems, Bind.bind, Except.bind]
          rw [← hnames, ntupleFromKwargs_asdict flds hnd]
  | VT.lazyVT _ _, _, hnl, _, _, _ => by
      exact absurd hnl (by simp [noLazy])
termination_by t _ _ _ _ _ => sizeOf t

/-- Claim C1 (counterexample): the shipped LazyValueType breaks the round
trip.  The loaded lazy value LazyValue(loaded, cached payload 5, db
representation 5) passes LazyValueType().validate, but
dbval_to_pyval(pyval_to_dbval(v)) rebuilds a fresh, not-yet-loaded LazyValue
(val_cached None, loaded False), which is not equal to v. -/
theorem c1_lazy_roundtrip_counterexample :
    validateVT (VT.lazyVT false false) (Val.vlazy true (Val.vint 5) (Val.vint 5)) =
      Except.ok () ∧
    wfVal (Val.vlazy true (Val.vint 5) (Val.vint 5)) = true ∧
    roundtripVT (VT.lazyVT false false) (Val.vlazy true (Val.vint 5) (Val.vint 5)) =
      Except.ok (Val.vlazy false Val.vnone (Val.vint 5)) ∧
    roundtripVT (VT.lazyVT false false) (Val.vlazy true (Val.vint 5) (Val.vint 5)) ≠
      Except.ok (Val.vlazy true (Val.vint 5) (Val.vint 5)) :=
  ⟨rfl, rfl, rfl, by decide⟩

/-- Claim C1 (amended): for every shipped value type not involving the lazy
value type, and every value v that passes that type's validate (well formed,
with plain-tuple slots holding plain tuples),
dbval_to_pyval(pyval_to_dbval(v)) returns v: the identity conversions of
AnyValueType and the simple typed types, the element-wise conversions of the
tuple/list/set/dict container types and the namedtuple type are mutually
inverse on valid input.  For LazyValueType the round trip instead produces a
fresh unloaded lazy value that only preserves the db-world representation. -/
theorem c1_roundtrip_amended (t : VT) (v : Val) (hnl : noLazy t = true)
    (hval : validateVT t v = Except.ok ()) (hwf : wfVal v = true)
    (hsh : plainTupleShapes t v = true) :
    roundtripVT t v = Except.ok v :=
  roundtripVT_sound t v hnl hval hwf hsh

/-- Witness for c1_roundtrip_amended at a list-of-int value type and the
list [1, 2]. -/
theorem c1_roundtrip_amended_witness :
    noLazy (VT.listVT (VT.intVT false) false) = true ∧
    validateVT (VT.listVT (VT.intVT false) false) (Val.vlist [Val.vint 1, Val.vint 2]) =
      Except.ok () ∧
    wfVal (Val.vlist [Val.vint 1, Val.vint 2]) = true ∧
    plainTupleShapes (VT.listVT (VT.intVT false) false) (Val.vlist [Val.vint 1, Val.vint 2]) =
      true ∧
    roundtripVT (VT.listVT (VT.intVT false) false) (Val.vlist [Val.vint 1, Val.vint 2]) =
      Except.ok (Val.vlist [Val.vint 1, Val.vint 2]) :=
  ⟨rfl, rfl, rfl, rfl, c1_roundtrip_amended _ _ rfl rfl rfl rfl⟩

theorem runVTChain_append_stop (v : Val) :
    ∀ (pre post : List VFun), (∀ f ∈ pre, ∃ w, applyVFun f v = Except.ok w) →
    runVTChain (pre ++ VFun.stopV :: post) v = Except.ok () := by
  intro pre
  induction pre with
  | nil => intro post _; rfl
  | cons f fs ih =>
      intro post h
      obtain ⟨w, hw⟩ := h f (List.mem_cons_self f fs)
      rw [List.cons_append, runVTChain, hw]
      exact ih post (fun g hg => h g (List.mem_cons_of_mem f hg))

theorem runValidatable_append (v : Val) :
    ∀ (pre post : List VFun),
    runValidatable (pre ++ post) v =
      (runValidatable pre v).bind (runValidatable post) := by
  intro pre
  induction pre generalizing v with
  | nil => intro post; rfl
  | cons f fs ih =>
      intro post
      rw [List.cons_append, runValidatable, runValidatable]
      cases applyVFun f v with
      | ok w => exact ih w post
      | error e => rfl

/-- Claim C4: evaluation of the code at the failing input.  For a
Validatable class whose resolved _validate list is already memoized,
validate() on an instance carrying one extra validator extends the memoized
list in place, so the class cache afterwards holds the extra validator
(first conjunct); a subsequent validate() on an instance of the same class
WITHOUT extra validators then runs the leaked validator and wrongly fails
(second conjunct).  The parallel AnyValueType.validate copies the resolved
list before appending extras, leaving its memoized list unchanged (third
conjunct), which is what the specified behavior looks like in code. -/
theorem c4_validator_cache_mutated :
    (validatableValidate [VFun.idV] (some [VFun.failV]) (some [VFun.idV]) (Val.vint 0)).2 =
      some [VFun.idV, VFun.failV] ∧
    (validatableValidate [VFun.idV] none (some [VFun.idV, VFun.failV]) (Val.vint 2)).1 =
      Except.error PErr.validationError ∧
    (anyTypeValidate [VFun.idV] (some [VFun.failV]) (some [VFun.idV]) (Val.vint 0)).2 =
      some [VFun.idV] :=
  ⟨rfl, rfl, rfl⟩

/-- Claim C5 (counterexample): in a Validatable-based validation chain (the
one fields and documents use), a validator raising StopValidation does not
halt the chain with the value accepted — Validatable.validate has no
StopValidation handler, so the exception propagates to the caller. -/
theorem c5_stopvalidation_counterexample :
    (validatableValidate [VFun.idV] (some [VFun.stopV]) none (Val.vint 3)).1 =
      Except.error PErr.stopValidation := rfl

/-- Claim C5 (amended): in value-type validation chains
(AnyValueType.validate), a validator that raises StopValidation halts the
chain early: all subsequent validators — including every instance-level
extra validator — are skipped and the value is accepted, for any suffix and
any extras.  In Validatable-based chains (fields and documents), the same
StopValidation instead propagates to the caller as an exception. -/
theorem c5_stop_halts_value_type_chain (pre es : List VFun) (v : Val)
    (hpre : ∀ f ∈ pre, ∃ w, applyVFun f v = Except.ok w)
    (hrun : ∃ w, runValidatable pre v = Except.ok w) :
    (anyTypeValidate (pre ++ [VFun.stopV]) (some es) none v).1 = Except.ok () ∧
    (validatableValidate (pre ++ [VFun.stopV]) (some es) none v).1 =
      Except.error PErr.stopValidation := by
  constructor
  · show runVTChain ((pre ++ [VFun.stopV]) ++ es) v = Except.ok ()
    rw [List.append_assoc, List.singleton_append]
    exact runVTChain_append_stop v pre es hpre
  · show runValidatable ((pre ++ [VFun.stopV]) ++ es) v = Except.error PErr.stopValidation
    rw [List.append_assoc, List.singleton_append, runValidatable_append]
    obtain ⟨w, hw⟩ := hrun
    rw [hw]
    rfl

/-- Witness for c5_stop_halts_value_type_chain with one passing validator
before the stopper and one failing extra validator after it. -/
theorem c5_stop_halts_value_type_chain_witness :
    (∀ f ∈ [VFun.idV], ∃ w, applyVFun f (Val.vint 0) = Except.ok w) ∧
    (anyTypeValidate ([VFun.idV] ++ [VFun.stopV]) (some [VFun.failV]) none (Val.vint 0)).1 =
      Except.ok () ∧
    (validatableValidate ([VFun.idV] ++ [VFun.stopV]) (some [VFun.failV]) none
      (Val.vint 0)).1 = Except.error PErr.stopValidation := by
  have hpre : ∀ f ∈ [VFun.idV], ∃ w, applyVFun f (Val.vint 0) = Except.ok w := by
    intro f hf
    rw [List.mem_singleton] at hf
    exact hf ▸ ⟨Val.vint 0, rfl⟩
  have h := c5_stop_halts_value_type_chain [VFun.idV] [VFun.failV] (Val.vint 0)
    hpre ⟨Val.vint 0, rfl⟩
  exact ⟨hpre, h.1, h.2⟩

/-- Claim C3 (counterexample): a field constructed with required = True and
an int value type fails validation on the non-None value "x" — so a
required field's validation does not fail only on None/absent values. -/
theorem c3_required_field_counterexample :
    (Val.vstr "x" ≠ Val.vnone) ∧
    fieldVValidate ⟨VT.intVT false, true⟩ (Val.vstr "x") =
      Except.error PErr.validationError :=
  ⟨by decide, rfl⟩

/-- Claim C3 (amended): a field constructed with required = True always
fails validation on None; on a non-None value the required check never
fires, and validation fails exactly when the associated value type's
validation fails — in particular a plain Field with the default
AnyValueType never fails on a non-None value. -/
theorem c3_required_field_amended (t : VT) (v : Val) (hv : v ≠ Val.vnone) :
    fieldVValidate ⟨t, true⟩ Val.vnone = Except.error PErr.validationError ∧
    fieldVValidate ⟨t, true⟩ v = validateVT t v ∧
    fieldVValidate ⟨VT.anyVT false, true⟩ v = Except.ok () := by
  refine ⟨rfl, ?_, ?_⟩
  · rw [fieldVValidate, if_neg]
    intro h
    exact hv h.1
  · rw [fieldVValidate, if_neg]
    · show validateVT (VT.anyVT false) v = Except.ok ()
      simp [validateVT, anyStep]
    · intro h
      exact hv h.1

/-- Witness for c3_required_field_amended at an int-typed required field
and the string value "x". -/
theorem c3_required_field_amended_witness :
    (Val.vstr "x" ≠ Val.vnone) ∧
    fieldVValidate ⟨VT.intVT false, true⟩ Val.vnone = Except.error PErr.validationError ∧
    fieldVValidate ⟨VT.intVT false, true⟩ (Val.vstr "x") =
      validateVT (VT.intVT false) (Val.vstr "x") ∧
    fieldVValidate ⟨VT.anyVT false, true⟩ (Val.vstr "x") = Except.ok () := by
  have h := c3_required_field_amended (VT.intVT false) (Val.vstr "x") (by decide)
  exact ⟨by decide, h.1, h.2.1, h.2.2⟩

/-- Claim C9 (counterexample): not every typed value type constructed
without forbid_none accepts None — ListValueType() (a TypedValueType
subclass) iterates the value in its own _validate, and iterating None
raises TypeError, so validate(None) does not succeed. -/
theorem c9_container_none_counterexample :
    validateVT (VT.listVT (VT.anyVT false) false) Val.vnone =
      Except.error PErr.typeError := rfl

/-- Claim C9 (amended): the isinstance structural check itself is skipped
whenever the value under validation is None — TypedValueType._validate and
TypedField._validate accept None for any checked type — so None passes
IntValueType and StringValueType without forbid_none, and the full
validator chains of non-required IntField and StringField accept None.
Subclass validators still run on None however, so None is not accepted by
every typed value type (container types raise TypeError iterating it). -/
theorem c9_none_skips_isinstance (check : Val → Bool) (ml : Option Nat)
    (nm dbn : String) (dflt : Val) (pk : Bool) :
    typedStep check Val.vnone = Except.ok () ∧
    validateVT (VT.intVT false) Val.vnone = Except.ok () ∧
    validateVT (VT.strVT ml false) Val.vnone = Except.ok () ∧
    runValidatable (fieldChain ⟨nm, some dbn, false, pk, dflt, FKind.intF⟩) Val.vnone =
      Except.ok Val.vnone ∧
    runValidatable (fieldChain ⟨nm, some dbn, false, pk, dflt, FKind.strF ml⟩) Val.vnone =
      Except.ok Val.vnone := by
  exact ⟨rfl, rfl, rfl, rfl, rfl⟩

/-- Claim C7 (counterexample): validation of lazy values is not always
deferred while unloaded.  Under LazyValueType
(values_and_valuetypes/lazy.py), _validate runs the payload value type's
validators on the cached payload even for a never-loaded value — with a
payload type that forbids None, the unloaded lazy value (payload None)
fails container-level validation.  The LazyField implementation
(fields/lazy.py), by contrast, runs no validator at all on an unloaded
Value, even a chain that rejects everything. -/
theorem c7_lazy_unloaded_counterexample :
    validateVT (VT.lazyVT true false) (Val.vlazy false Val.vnone (Val.vint 7)) =
      Except.error PErr.validationError ∧
    lazyFieldValidate [VFun.failV] id ⟨false, Val.vnone, Val.vint 7⟩ =
      Except.ok ⟨false, Val.vnone, Val.vint 7⟩ :=
  ⟨rfl, rfl⟩

/-- Claim C7 (amended): for LazyField values (fields/lazy.py), validation
is deferred: an unloaded Value always passes validation with no validator
run on its payload, for every validator chain; once loaded, the field's
validator chain runs on the cached payload, a raised error propagates, and
a transformed result replaces the cached payload in place (via
set(validated_val, False), refreshing the db-world form, without
dirty-marking).  LazyValueType does not defer (see the counterexample). -/
theorem c7_lazyfield_validation (chain : List VFun) (conv : Val → Val) (v : LFValue) :
    (v.loaded = false → lazyFieldValidate chain conv v = Except.ok v) ∧
    (v.loaded = true → ∀ w, runValidatable chain v.valCached = Except.ok w →
      lazyFieldValidate chain conv v = Except.ok
        { loaded := true, valCached := w,
          valDoc := if w = v.valCached then v.valDoc else conv w }) ∧
    (v.loaded = true → ∀ e, runValidatable chain v.valCached = Except.error e →
      lazyFieldValidate chain conv v = Except.error e) := by
  obtain ⟨l, c, dv⟩ := v
  refine ⟨?_, ?_, ?_⟩
  · intro hl
    simp only at hl
    subst hl
    rfl
  · intro hl w hw
    simp only at hl
    subst hl
    simp only [lazyFieldValidate, hw, if_true]
    by_cases hwc : w = c
    · subst hwc
      simp
    · simp [hwc, lfSet]
  · intro hl e he
    simp only at hl
    subst hl
    simp only [lazyFieldValidate, he, if_true]

/-- Witness for c7_lazyfield_validation: an unloaded Value passes with an
identity chain, and a loaded Value keeps its cached payload when the chain
returns it unchanged. -/
theorem c7_lazyfield_validation_witness :
    lazyFieldValidate [VFun.idV] id ⟨false, Val.vnone, Val.vint 1⟩ =
      Except.ok ⟨false, Val.vnone, Val.vint 1⟩ ∧
    lazyFieldValidate [VFun.idV] id ⟨true, Val.vint 2, Val.vint 3⟩ =
      Except.ok ⟨true, Val.vint 2, Val.vint 3⟩ := by
  constructor
  · exact (c7_lazyfield_validation [VFun.idV] id ⟨false, Val.vnone, Val.vint 1⟩).1 rfl
  · have h := (c7_lazyfield_validation [VFun.idV] id ⟨true, Val.vint 2, Val.vint 3⟩).2.1 rfl
      (Val.vint 2) rfl
    simpa using h

/-- Claim C8: change-feed iteration equals repeatedly calling __anext__
(first conjunct); the yielded items are exactly the messages carrying a
new_val, each mapped and paired with its raw message, in stream order
(second conjunct: status-only events are silently skipped and never
yielded, and nothing else is dropped); and __anext__ signals end of
iteration only when the underlying stream ends — never while an event
carrying a new_val remains (third conjunct), so on an unbounded stream the
iteration ends only when the stream or the consumer stops. -/
theorem c8_changefeed_skips_status_events (mapper : Val → Val)
    (msgs : List (List (String × Val))) :
    (changesIterate mapper msgs =
      (match changesAnext mapper msgs with
       | none => []
       | some (item, rest) => item :: changesIterate mapper rest)) ∧
    changesIterate mapper msgs =
      msgs.filterMap (fun m => (lookupKey "new_val" m).map (fun nv => (mapper nv, m))) ∧
    (changesAnext mapper msgs = none ↔ ∀ m ∈ msgs, lookupKey "new_val" m = none) := by
  induction msgs with
  | nil => exact ⟨rfl, rfl, by simp [changesAnext]⟩
  | cons m rest ih =>
      cases hm : lookupKey "new_val" m with
      | some nv =>
          refine ⟨?_, ?_, ?_⟩
          · simp [changesAnext, changesIterate, hm]
          · simp [changesIterate, hm, List.filterMap_cons, ih.2.1]
          · constructor
            · intro h
              simp [changesAnext, hm] at h
            · intro h
              exact absurd (h m (List.mem_cons_self m rest)) (by simp [hm])
      | none =>
          refine ⟨?_, ?_, ?_⟩
          · simp only [changesIterate, changesAnext, hm]
            exact ih.1
          · simp [changesIterate, hm, List.filterMap_cons, ih.2.1]
          · simp only [changesAnext, hm]
            constructor
            · intro h n hn
              rcases List.mem_cons.mp hn with rfl | hmem
              · exact hm
              · exact (ih.2.2.mp h) n hmem
            · intro h
              exact ih.2.2.mpr (fun n hn => h n (List.mem_cons_of_mem m hn))

theorem lookupKey_not_mem (n : String) :
    ∀ (l : List (String × Val)), n ∉ l.map Prod.fst → lookupKey n l = none := by
  intro l
  induction l with
  | nil => intro _; rfl
  | cons kv rest ih =>
      intro h
      obtain ⟨k, v⟩ := kv
      rw [List.map_cons, List.mem_cons] at h
      push_neg at h
      rw [lookupKey, if_neg (fun he => h.1 he.symm)]
      exact ih h.2

theorem lookupKey_eraseKey_of_nodup (n : String) (l : List (String × Val))
    (hnd : (l.map Prod.fst).Nodup) :
    lookupKey n (eraseKey l n) = none := by
  induction l with
  | nil => rfl
  | cons kv rest ih =>
      obtain ⟨k, v⟩ := kv
      rw [List.map_cons, List.nodup_cons] at hnd
      by_cases hk : k = n
      · subst hk
        rw [eraseKey, if_pos rfl]
        exact lookupKey_not_mem k rest hnd.1
      · rw [eraseKey, if_neg hk, lookupKey, if_neg hk]
        exact ih hnd.2

theorem markFieldUpdated_mem (u : List String) (n : String) :
    n ∈ markFieldUpdated u n := by
  rw [markFieldUpdated]
  by_cases h : n ∈ u
  · rw [if_pos h]; exact h
  · rw [if_neg h]; exact List.mem_append_right u (List.mem_singleton.mpr rfl)

/-- Claim C10: deleting a declared field that has no stored value is a
silent no-op — the container state is entirely unchanged, nothing is marked
dirty (and the operation is a total function, so no exception can occur);
when a value is stored, delete removes exactly that stored value, marks the
field dirty, and leaves undeclared fields and the stored_in_db flag
untouched. -/
theorem c10_field_delete (d : DocInst) (n : String)
    (hnd : (d.declaredValues.map Prod.fst).Nodup) :
    (lookupKey n d.declaredValues = none → fieldDelete n d = d) ∧
    (∀ v0, lookupKey n d.declaredValues = some v0 →
      (fieldDelete n d).declaredValues = eraseKey d.declaredValues n ∧
      lookupKey n (fieldDelete n d).declaredValues = none ∧
      n ∈ (fieldDelete n d).updatedFields ∧
      (fieldDelete n d).undeclaredFields = d.undeclaredFields ∧
      (fieldDelete n d).storedInDb = d.storedInDb) := by
  constructor
  · intro h
    rw [fieldDelete, if_neg]
    rw [h]
    intro hcontra
    exact Bool.noConfusion hcontra
  · intro v0 h
    have hsome : (lookupKey n d.declaredValues).isSome := by rw [h]; rfl
    rw [fieldDelete, if_pos hsome]
    exact ⟨rfl, lookupKey_eraseKey_of_nodup n d.declaredValues hnd,
      markFieldUpdated_mem d.updatedFields n, rfl, rfl⟩

/-- Witness for c10_field_delete: a container with one stored field,
deleting an unset name (no-op) and the stored one (removed and dirty). -/
theorem c10_field_delete_witness :
    fieldDelete "other" ⟨[("name", Val.vstr "a")], [], [], false⟩ =
      ⟨[("name", Val.vstr "a")], [], [], false⟩ ∧
    lookupKey "name" (fieldDelete "name"
      (⟨[("name", Val.vstr "a")], [], [], false⟩ : DocInst)).declaredValues = none ∧
    "name" ∈ (fieldDelete "name"
      (⟨[("name", Val.vstr "a")], [], [], false⟩ : DocInst)).updatedFields := by
  have h1 := (c10_field_delete ⟨[("name", Val.vstr "a")], [], [], false⟩ "other"
    (by simp)).1 rfl
  have h2 := (c10_field_delete ⟨[("name", Val.vstr "a")], [], [], false⟩ "name"
    (by simp)).2 (Val.vstr "a") rfl
  exact ⟨h1, h2.2.1, h2.2.2.1⟩

theorem applyVFun_nonconst_ok (g : VFun) (hg : ∀ c, g ≠ VFun.constV c)
    (v w : Val) (h : applyVFun g v = Except.ok w) : w = v := by
  cases g with
  | idV => exact (Except.ok.inj h).symm
  | requiredV req =>
      simp only [applyVFun] at h
      split at h
      · exact Except.noConfusion h
      · exact (Except.ok.inj h).symm
  | isIntV =>
      simp only [applyVFun] at h
      split at h
      · exact (Except.ok.inj h).symm
      split at h
      · exact (Except.ok.inj h).symm
      · exact Except.noConfusion h
  | isStrV =>
      simp only [applyVFun] at h
      split at h
      · exact (Except.ok.inj h).symm
      split at h
      · exact (Except.ok.inj h).symm
      · exact Except.noConfusion h
  | strMaxLenV ml =>
      simp only [applyVFun] at h
      split at h
      · exact (Except.ok.inj h).symm
      split at h
      · exact (Except.ok.inj h).symm
      split at h
      · exact (Except.ok.inj h).symm
      · cases hp : pyLen v with
        | error e => rw [hp] at h; exact Except.noConfusion h
        | ok nlen =>
            rw [hp] at h
            simp only [Except.bind] at h
            split at h
            · exact Except.noConfusion h
            · exact (Except.ok.inj h).symm
  | failV => exact Except.noConfusion h
  | stopV => exact Except.noConfusion h
  | constV c => exact absurd rfl (hg c)

theorem runValidatable_preserve :
    ∀ (fs : List VFun), (∀ g ∈ fs, ∀ c, g ≠ VFun.constV c) →
    ∀ (v w : Val), runValidatable fs v = Except.ok w → w = v := by
  intro fs
  induction fs with
  | nil => intro _ v w h; exact (Except.ok.inj h).symm
  | cons g gs ih =>
      intro hfs v w h
      rw [runValidatable] at h
      cases hap : applyVFun g v with
      | error e => rw [hap] at h; exact Except.noConfusion h
      | ok u =>
          rw [hap] at h
          have hu : u = v :=
            applyVFun_nonconst_ok g (hfs g (List.mem_cons_self g gs)) v u hap
          have hw : w = u := ih (fun g2 hg2 => hfs g2 (List.mem_cons_of_mem g hg2)) u w h
          exact hw.trans hu

theorem fieldChain_no_const (f : FieldSpec) :
    ∀ g ∈ fieldChain f, ∀ c, g ≠ VFun.constV c := by
  intro g hg c
  cases hk : f.kind with
  | anyF =>
      rw [fieldChain, hk] at hg
      rcases List.mem_cons.mp hg with rfl | hg2
      · exact fun h => VFun.noConfusion h
      rcases List.mem_cons.mp hg2 with rfl | hg3
      · exact fun h => VFun.noConfusion h
      · exact absurd hg3 (List.not_mem_nil g)
  | intF =>
      rw [fieldChain, hk] at hg
      rcases List.mem_cons.mp hg with rfl | hg2
      · exact fun h => VFun.noConfusion h
      rcases List.mem_cons.mp hg2 with rfl | hg3
      · exact fun h => VFun.noConfusion h
      rcases List.mem_cons.mp hg3 with rfl | hg4
      · exact fun h => VFun.noConfusion h
      · exact absurd hg4 (List.not_mem_nil g)
  | strF ml =>
      rw [fieldChain, hk] at hg
      rcases List.mem_cons.mp hg with rfl | hg2
      · exact fun h => VFun.noConfusion h
      rcases List.mem_cons.mp hg2 with rfl | hg3
      · exact fun h => VFun.noConfusion h
      rcases List.mem_cons.mp hg3 with rfl | hg4
      · exact fun h => VFun.noConfusion h
      rcases List.mem_cons.mp hg4 with rfl | hg5
      · exact fun h => VFun.noConfusion h
      · exact absurd hg5 (List.not_mem_nil g)

theorem fieldChain_run_eq (f : FieldSpec) (v w : Val)
    (h : runValidatable (fieldChain f) v = Except.ok w) : w = v :=
  runValidatable_preserve (fieldChain f) (fieldChain_no_const f) v w h

theorem setKey_self (n : String) (v : Val) :
    ∀ (l : List (String × Val)), lookupKey n l = some v → setKey l n v = l := by
  intro l
  induction l with
  | nil => intro h; exact Option.noConfusion h
  | cons kv rest ih =>
      intro h
      obtain ⟨k, w⟩ := kv
      by_cases hk : k = n
      · subst hk
        rw [lookupKey, if_pos rfl] at h
        rw [setKey, if_pos rfl, Option.some.inj h]
      · rw [lookupKey, if_neg hk] at h
        rw [setKey, if_neg hk, ih h]

theorem lookupKey_setKey_self (n : String) (v : Val) :
    ∀ (l : List (String × Val)), lookupKey n (setKey l n v) = some v := by
  intro l
  induction l with
  | nil => rw [setKey, lookupKey, if_pos rfl]
  | cons kv rest ih =>
      obtain ⟨k, w⟩ := kv
      by_cases hk : k = n
      · subst hk
        rw [setKey, if_pos rfl, lookupKey, if_pos rfl]
      · rw [setKey, if_neg hk, lookupKey, if_neg hk]
        exact ih

theorem setKey_keys_mem (x n : String) (v : Val) :
    ∀ (l : List (String × Val)), x ∈ (setKey l n v).map Prod.fst →
    x ∈ l.map Prod.fst ∨ x = n := by
  intro l
  induction l with
  | nil =>
      intro h
      rw [setKey, List.map_singleton, List.mem_singleton] at h
      exact Or.inr h
  | cons kv rest ih =>
      intro h
      obtain ⟨k, w⟩ := kv
      by_cases hk : k = n
      · subst hk
        rw [setKey, if_pos rfl, List.map_cons, List.mem_cons] at h
        rcases h with rfl | h2
        · exact Or.inr rfl
        · exact Or.inl (List.mem_cons_of_mem _ h2)
      · rw [setKey, if_neg hk, List.map_cons, List.mem_cons] at h
        rcases h with rfl | h2
        · exact Or.inl (List.mem_cons_self _ _)
        · rcases ih h2 with h3 | h3
          · exact Or.inl (List.mem_cons_of_mem _ h3)
          · exact Or.inr h3

theorem dictUpdate_keys_mem (x : String) :
    ∀ (b a : List (String × Val)), x ∈ (dictUpdate a b).map Prod.fst →
    x ∈ a.map Prod.fst ∨ x ∈ b.map Prod.fst := by
  intro b
  induction b with
  | nil => intro a h; exact Or.inl h
  | cons kv rest ih =>
      intro a h
      rw [dictUpdate, List.foldl_cons] at h
      rcases ih (setKey a kv.1 kv.2) h with h2 | h2
      · rcases setKey_keys_mem x kv.1 kv.2 a h2 with h3 | h3
        · exact Or.inl h3
        · exact Or.inr (h3 ▸ List.mem_map_of_mem Prod.fst (List.mem_cons_self kv rest))
      · exact Or.inr (List.mem_cons_of_mem _ (by simpa using h2))

theorem validateField_fst (dc : DocClass) (d : DocInst) (n : String) :
    (validateField dc d n).1 = d := by
  simp only [validateField]
  split
  · rfl
  next f hf =>
    split
    next e he => rfl
    next w hw =>
      by_cases hs : (lookupKey n d.declaredValues).isSome = true
      · rw [if_pos hs]
        have hww := fieldChain_run_eq f _ w hw
        obtain ⟨v0, hv0⟩ := Option.isSome_iff_exists.mp hs
        rw [hv0] at hww
        simp only [Option.getD_some] at hww
        have hv0w : lookupKey n d.declaredValues = some w := by rw [hww]; exact hv0
        show ({ d with declaredValues := setKey d.declaredValues n w } : DocInst) = d
        rw [setKey_self n w d.declaredValues hv0w]
      · rw [if_neg hs]

theorem validateField_eq (dc : DocClass) (d : DocInst) (n : String) :
    validateField dc d n = (d, (validateField dc d n).2) :=
  Prod.ext (validateField_fst dc d n) rfl

theorem docValidateFields_fst (dc : DocClass) :
    ∀ (ns : List String) (d : DocInst), (docValidateFields dc ns d).1 = d := by
  intro ns
  induction ns with
  | nil => intro d; rfl
  | cons n ns ih =>
      intro d
      simp only [docValidateFields]
      by_cases hA : dc.hasFieldAttr n = true
      · rw [if_pos hA, validateField_eq dc d n]
        cases hr : (validateField dc d n).2 with
        | ok u => exact ih d
        | error e => rfl
      · rw [if_neg hA]
        exact ih d

theorem documentValidate_fst (dc : DocClass) (d : DocInst) :
    (documentValidate dc d).1 = d :=
  docValidateFields_fst dc d.updatedFields d

theorem documentValidate_eq (dc : DocClass) (d : DocInst) :
    documentValidate dc d = (d, (documentValidate dc d).2) :=
  Prod.ext (documentValidate_fst dc d) rfl

theorem buildUpdateDict_keys (dc : DocClass) (d : DocInst) :
    ∀ (ns : List String) (ud : List (String × Val)),
    buildUpdateDict dc d ns = Except.ok ud →
    ud.map Prod.fst = ns.map (dbKeyOf dc) := by
  intro ns
  induction ns with
  | nil =>
      intro ud h
      rw [buildUpdateDict] at h
      rw [← Except.ok.inj h]
      rfl
  | cons n ns ih =>
      intro ud h
      simp only [buildUpdateDict] at h
      cases hf : dc.findField n with
      | some f =>
          rw [hf] at h
          replace h : (do
              let w ← doConvertToDoc f d
              let rest ← buildUpdateDict dc d ns
              Except.ok ((f.dbname, w) :: rest)) = Except.ok ud := h
          obtain ⟨w, hw, h⟩ := exceptBind_ok.mp h
          obtain ⟨rest, hrest, h⟩ := exceptBind_ok.mp h
          rw [← Except.ok.inj h, List.map_cons, List.map_cons, ih rest hrest]
          show f.dbname :: _ = dbKeyOf dc n :: _
          rw [dbKeyOf, hf]
      | none =>
          rw [hf] at h
          replace h : (do
              let rest ← buildUpdateDict dc d ns
              Except.ok ((n, (lookupKey n d.undeclaredFields).getD Val.vnone) :: rest)) =
                Except.ok ud := h
          obtain ⟨rest, hrest, h⟩ := exceptBind_ok.mp h
          rw [← Except.ok.inj h, List.map_cons, List.map_cons, ih rest hrest]
          show n :: _ = dbKeyOf dc n :: _
          rw [dbKeyOf, hf]

theorem buildUpdateDict_mem (dc : DocClass) (d : DocInst) :
    ∀ (ns : List String) (ud : List (String × Val)),
    buildUpdateDict dc d ns = Except.ok ud →
    ∀ (n : String) (f : FieldSpec), n ∈ ns → dc.findField n = some f →
    ∃ w, doConvertToDoc f d = Except.ok w ∧ (f.dbname, w) ∈ ud := by
  intro ns
  induction ns with
  | nil => intro ud _ n f hn _; exact absurd hn (List.not_mem_nil n)
  | cons n0 ns ih =>
      intro ud h n f hn hf
      simp only [buildUpdateDict] at h
      cases hf0 : dc.findField n0 with
      | some f0 =>
          rw [hf0] at h
          replace h : (do
              let w ← doConvertToDoc f0 d
              let rest ← buildUpdateDict dc d ns
              Except.ok ((f0.dbname, w) :: rest)) = Except.ok ud := h
          obtain ⟨w0, hw0, h⟩ := exceptBind_ok.mp h
          obtain ⟨rest, hrest, h⟩ := exceptBind_ok.mp h
          rcases List.mem_cons.mp hn with rfl | hmem
          · rw [hf0] at hf
            obtain rfl := Option.some.inj hf
            exact ⟨w0, hw0, by rw [← Except.ok.inj h]; exact List.mem_cons_self _ _⟩
          · obtain ⟨w, hw, hmem2⟩ := ih rest hrest n f hmem hf
            exact ⟨w, hw, by rw [← Except.ok.inj h]; exact List.mem_cons_of_mem _ hmem2⟩
      | none =>
          rw [hf0] at h
          replace h : (do
              let rest ← buildUpdateDict dc d ns
              Except.ok ((n0, (lookupKey n0 d.undeclaredFields).getD Val.vnone) :: rest)) =
                Except.ok ud := h
          obtain ⟨rest, hrest, h⟩ := exceptBind_ok.mp h
          rcases List.mem_cons.mp hn with rfl | hmem
          · rw [hf0] at hf
            exact Option.noConfusion hf
          · obtain ⟨w, hw, hmem2⟩ := ih rest hrest n f hmem hf
            exact ⟨w, hw, by rw [← Except.ok.inj h]; exact List.mem_cons_of_mem _ hmem2⟩

theorem buildInsertFields_pk_not_mem (d : DocInst) (pf : FieldSpec)
    (hpfpk : pf.primaryKey = true) (hpknone : fieldGetValue pf d = Val.vnone) :
    ∀ (fs : List FieldSpec) (ds : List (String × Val)),
    (∀ f ∈ fs, f.primaryKey = true → f = pf) →
    (∀ f ∈ fs, f ≠ pf → f.dbname ≠ pf.dbname) →
    buildInsertFields d fs = Except.ok ds → pf.dbname ∉ ds.map Prod.fst := by
  intro fs
  induction fs with
  | nil =>
      intro ds _ _ h
      rw [buildInsertFields] at h
      rw [← Except.ok.inj h]
      simp
  | cons f fs ih =>
      intro ds hpk hdb h
      simp only [buildInsertFields] at h
      by_cases hc : f.primaryKey = true ∧ fieldGetValue f d = Val.vnone
      · rw [if_pos hc] at h
        exact ih ds (fun g hg => hpk g (List.mem_cons_of_mem f hg))
          (fun g hg => hdb g (List.mem_cons_of_mem f hg)) h
      · rw [if_neg hc] at h
        obtain ⟨w, hw, h⟩ := exceptBind_ok.mp h
        obtain ⟨rest, hrest, h⟩ := exceptBind_ok.mp h
        rw [← Except.ok.inj h, List.map_cons]
        intro hmem
        rcases List.mem_cons.mp hmem with heq | hmem2
        · by_cases hfp : f = pf
          · subst hfp
            exact hc ⟨hpfpk, hpknone⟩
          · exact hdb f (List.mem_cons_self f fs) hfp heq.symm
        · exact ih rest (fun g hg => hpk g (List.mem_cons_of_mem f hg))
            (fun g hg => hdb g (List.mem_cons_of_mem f hg)) hrest hmem2

theorem docSave_update_ok (dc : DocClass) (d : DocInst) (genKey : Val)
    (d2 : DocInst) (ud : List (String × Val))
    (hs : d.storedInDb = true)
    (h : docSave dc d genKey = (d2, Except.ok (SaveRes.updated (some ud)))) :
    updateInDb dc d = (d2, Except.ok (some ud)) := by
  rw [docSave, if_pos hs] at h
  cases hu : updateInDb dc d with
  | mk du ru =>
      rw [hu] at h
      cases ru with
      | ok r =>
          replace h : ((du, Except.ok (SaveRes.updated r)) :
              DocInst × Except PErr SaveRes) =
              (d2, Except.ok (SaveRes.updated (some ud))) := h
          rw [Prod.mk.injEq] at h
          obtain ⟨h1, h2⟩ := h
          obtain rfl := SaveRes.updated.inj (Except.ok.inj h2)
          rw [h1]
      | error e =>
          replace h : ((du, Except.error e) : DocInst × Except PErr SaveRes) =
              (d2, Except.ok (SaveRes.updated (some ud))) := h
          rw [Prod.mk.injEq] at h
          exact absurd h.2 (by simp)

theorem docSave_insert_ok (dc : DocClass) (d : DocInst) (genKey : Val)
    (d2 : DocInst) (idict : List (String × Val))
    (hs : d.storedInDb = false)
    (h : docSave dc d genKey = (d2, Except.ok (SaveRes.inserted idict))) :
    insertIntoDb dc d genKey = (d2, Except.ok idict) := by
  rw [docSave] at h
  rw [hs] at h
  rw [if_neg Bool.false_ne_true] at h
  cases hu : insertIntoDb dc d genKey with
  | mk du ru =>
      rw [hu] at h
      cases ru with
      | ok r =>
          replace h : ((du, Except.ok (SaveRes.inserted r)) :
              DocInst × Except PErr SaveRes) =
              (d2, Except.ok (SaveRes.inserted idict)) := h
          rw [Prod.mk.injEq] at h
          obtain ⟨h1, h2⟩ := h
          obtain rfl := SaveRes.inserted.inj (Except.ok.inj h2)
          rw [h1]
      | error e =>
          replace h : ((du, Except.error e) : DocInst × Except PErr SaveRes) =
              (d2, Except.ok (SaveRes.inserted idict)) := h
          rw [Prod.mk.injEq] at h
          exact absurd h.2 (by simp)

theorem updateInDb_ok_some (dc : DocClass) (d : DocInst) (du : DocInst)
    (ud : List (String × Val))
    (h : updateInDb dc d = (du, Except.ok (some ud))) :
    buildUpdateDict dc d d.updatedFields = Except.ok ud ∧
    du = { d with updatedFields := [] } := by
  rw [updateInDb] at h
  by_cases he : d.updatedFields.isEmpty = true
  · rw [if_pos he] at h
    rw [Prod.mk.injEq] at h
    exact absurd (Except.ok.inj h.2) (by simp)
  · rw [if_neg he] at h
    rw [documentValidate_eq dc d] at h
    cases hdv : (documentValidate dc d).2 with
    | error e =>
        rw [hdv] at h
        replace h : ((d, Except.error e) :
            DocInst × Except PErr (Option (List (String × Val)))) =
            (du, Except.ok (some ud)) := h
        rw [Prod.mk.injEq] at h
        exact absurd h.2 (by simp)
    | ok u =>
        rw [hdv] at h
        replace h : (match buildUpdateDict dc d d.updatedFields with
            | Except.error e =>
                ((d, Except.error e) :
                  DocInst × Except PErr (Option (List (String × Val))))
            | Except.ok ud2 =>
                ({ d with updatedFields := [] }, Except.ok (some ud2))) =
            (du, Except.ok (some ud)) := h
        cases hb : buildUpdateDict dc d d.updatedFields with
        | error e =>
            rw [hb] at h
            replace h : ((d, Except.error e) :
                DocInst × Except PErr (Option (List (String × Val)))) =
                (du, Except.ok (some ud)) := h
            rw [Prod.mk.injEq] at h
            exact absurd h.2 (by simp)
        | ok ud2 =>
            rw [hb] at h
            replace h : ((({ d with updatedFields := [] } : DocInst),
                Except.ok (some ud2)) :
                DocInst × Except PErr (Option (List (String × Val)))) =
                (du, Except.ok (some ud)) := h
            rw [Prod.mk.injEq] at h
            obtain ⟨h1, h2⟩ := h
            obtain rfl := Option.some.inj (Except.ok.inj h2)
            exact ⟨rfl, h1.symm⟩

theorem insertIntoDb_ok_parts (dc : DocClass) (d : DocInst) (genKey : Val)
    (d2 : DocInst) (idict : List (String × Val)) (pf : FieldSpec)
    (hpk : dc.pkField = some pf)
    (hnm : pf.dbname ∉ idict.map Prod.fst)
    (h : insertIntoDb dc d genKey = (d2, Except.ok idict)) :
    buildInsertDict dc d = Except.ok idict ∧
    d2 = { fieldSetValue pf { d with updatedFields := [] } genKey false with
            storedInDb := true } := by
  rw [insertIntoDb] at h
  rw [documentValidate_eq dc d] at h
  cases hdv : (documentValidate dc d).2 with
  | error e =>
      rw [hdv] at h
      replace h : ((d, Except.error e) :
          DocInst × Except PErr (List (String × Val))) =
          (d2, Except.ok idict) := h
      rw [Prod.mk.injEq] at h
      exact absurd h.2 (by simp)
  | ok u =>
      rw [hdv] at h
      replace h : (match buildInsertDict dc d with
          | Except.error e =>
              ((d, Except.error e) : DocInst × Except PErr (List (String × Val)))
          | Except.ok id2 =>
              ({ (match dc.pkField with
                  | some pf2 =>
                      if pf2.dbname ∈ id2.map Prod.fst then
                        { d with updatedFields := [] }
                      else fieldSetValue pf2 { d with updatedFields := [] } genKey false
                  | none => { d with updatedFields := [] }) with storedInDb := true },
                Except.ok id2)) = (d2, Except.ok idict) := h
      cases hbi : buildInsertDict dc d with
      | error e =>
          rw [hbi] at h
          replace h : ((d, Except.error e) :
              DocInst × Except PErr (List (String × Val))) =
              (d2, Except.ok idict) := h
          rw [Prod.mk.injEq] at h
          exact absurd h.2 (by simp)
      | ok id2 =>
          rw [hbi] at h
          replace h : (({ (match dc.pkField with
              | some pf2 =>
                  if pf2.dbname ∈ id2.map Prod.fst then
                    { d with updatedFields := [] }
                  else fieldSetValue pf2 { d with updatedFields := [] } genKey false
              | none => { d with updatedFields := [] }) with storedInDb := true },
              Except.ok id2) : DocInst × Except PErr (List (String × Val))) =
              (d2, Except.ok idict) := h
          rw [hpk] at h
          rw [Prod.mk.injEq] at h
          obtain ⟨h1, h2⟩ := h
          obtain rfl := Except.ok.inj h2
          replace h1 : ({ (if pf.dbname ∈ id2.map Prod.fst then
                ({ d with updatedFields := [] } : DocInst)
              else fieldSetValue pf { d with updatedFields := [] } genKey false) with
              storedInDb := true } : DocInst) = d2 := h1
          rw [if_neg hnm] at h1
          exact ⟨rfl, h1.symm⟩

theorem buildInsertDict_ok (dc : DocClass) (d : DocInst)
    (idict : List (String × Val))
    (h : buildInsertDict dc d = Except.ok idict) :
    ∃ ifields, buildInsertFields d dc.fields = Except.ok ifields ∧
      idict = dictUpdate ifields d.undeclaredFields := by
  rw [buildInsertDict] at h
  cases hbf : buildInsertFields d dc.fields with
  | error e => rw [hbf] at h; exact Except.noConfusion h
  | ok ifields =>
      rw [hbf] at h
      replace h : Except.ok (dictUpdate ifields d.undeclaredFields) =
          (Except.ok idict : Except PErr (List (String × Val))) := h
      exact ⟨ifields, rfl, (Except.ok.inj h).symm⟩

/-- Claim C2: save() on a not-yet-stored instance performs an insert in
which an unset primary key is omitted from the inserted document (so the
store generates a key), the generated key is written back into the local
primary-key field, the instance becomes stored and the dirty set is
cleared; save() on an already-stored instance performs an update containing
exactly the fields marked dirty since the last save — each under its db
name, declared fields with their converted db values — and then clears the
dirty set, leaving the rest of the state untouched. -/
theorem c2_save_inserts_then_updates (dc : DocClass) (d : DocInst) (genKey : Val) :
    (∀ (pf : FieldSpec) (idict : List (String × Val)) (d2 : DocInst),
      d.storedInDb = false →
      dc.pkField = some pf →
      fieldGetValue pf d = Val.vnone →
      (∀ f ∈ dc.fields, f.primaryKey = true → f = pf) →
      (∀ f ∈ dc.fields, f ≠ pf → f.dbname ≠ pf.dbname) →
      pf.dbname ∉ d.undeclaredFields.map Prod.fst →
      docSave dc d genKey = (d2, Except.ok (SaveRes.inserted idict)) →
      pf.dbname ∉ idict.map Prod.fst ∧
      lookupKey pf.fname d2.declaredValues = some genKey ∧
      d2.storedInDb = true ∧ d2.updatedFields = []) ∧
    (∀ (ud : List (String × Val)) (d2 : DocInst),
      d.storedInDb = true →
      docSave dc d genKey = (d2, Except.ok (SaveRes.updated (some ud))) →
      ud.map Prod.fst = d.updatedFields.map (dbKeyOf dc) ∧
      (∀ (n : String) (f : FieldSpec), n ∈ d.updatedFields →
        dc.findField n = some f →
        ∃ w, doConvertToDoc f d = Except.ok w ∧ (f.dbname, w) ∈ ud) ∧
      d2 = { d with updatedFields := [] }) := by
  constructor
  · intro pf idict d2 hs hpk hpknone hpkuniq hdbuniq hund h
    have hins := docSave_insert_ok dc d genKey d2 idict hs h
    have hpfpk : pf.primaryKey = true := List.find?_some hpk
    have hnm : pf.dbname ∉ idict.map Prod.fst := by
      intro hmem
      have hbi : buildInsertDict dc d = Except.ok idict := by
        rcases hx : buildInsertDict dc d with e | id2
        · rw [insertIntoDb] at hins
          rw [documentValidate_eq dc d] at hins
          cases hdv : (documentValidate dc d).2 with
          | error e2 =>
              rw [hdv] at hins
              replace hins : ((d, Except.error e2) :
                  DocInst × Except PErr (List (String × Val))) =
                  (d2, Except.ok idict) := hins
              rw [Prod.mk.injEq] at hins
              exact absurd hins.2 (by simp)
          | ok u =>
              rw [hdv] at hins
              replace hins : (match buildInsertDict dc d with
                  | Except.error e2 =>
                      ((d, Except.error e2) :
                        DocInst × Except PErr (List (String × Val)))
                  | Except.ok id3 =>
                      ({ (match dc.pkField with
                          | some pf2 =>
                              if pf2.dbname ∈ id3.map Prod.fst then
                                { d with updatedFields := [] }
                              else
                                fieldSetValue pf2 { d with updatedFields := [] }
                                  genKey false
                          | none => { d with updatedFields := [] }) with
                          storedInDb := true },
                        Except.ok id3)) = (d2, Except.ok idict) := hins
              rw [hx] at hins
              replace hins : ((d, Except.error e) :
                  DocInst × Except PErr (List (String × Val))) =
                  (d2, Except.ok idict) := hins
              rw [Prod.mk.injEq] at hins
              exact absurd hins.2 (by simp)
        · rw [insertIntoDb] at hins
          rw [documentValidate_eq dc d] at hins
          cases hdv : (documentValidate dc d).2 with
          | error e2 =>
              rw [hdv] at hins
              replace hins : ((d, Except.error e2) :
                  DocInst × Except PErr (List (String × Val))) =
                  (d2, Except.ok idict) := hins
              rw [Prod.mk.injEq] at hins
              exact absurd hins.2 (by simp)
          | ok u =>
              rw [hdv] at hins
              replace hins : (match buildInsertDict dc d with
                  | Except.error e2 =>
                      ((d, Except.error e2) :
                        DocInst × Except PErr (List (String × Val)))
                  | Except.ok id3 =>
                      ({ (match dc.pkField with
                          | some pf2 =>
                              if pf2.dbname ∈ id3.map Prod.fst then
                                { d with updatedFields := [] }
                              else
                                fieldSetValue pf2 { d with updatedFields := [] }
                                  genKey false
                          | none => { d with updatedFields := [] }) with
                          storedInDb := true },
                        Except.ok id3)) = (d2, Except.ok idict) := hins
              rw [hx] at hins
              replace hins : (({ (match dc.pkField with
                  | some pf2 =>
                      if pf2.dbname ∈ id2.map Prod.fst then
                        ({ d with updatedFields := [] } : DocInst)
                      else
                        fieldSetValue pf2 { d with updatedFields := [] }
                          genKey false
                  | none => { d with updatedFields := [] }) with
                  storedInDb := true },
                  Except.ok id2) :
                  DocInst × Except PErr (List (String × Val))) =
                  (d2, Except.ok idict) := hins
              rw [Prod.mk.injEq] at hins
              rw [Except.ok.inj hins.2]
      obtain ⟨ifields, hbf, rfl⟩ := buildInsertDict_ok dc d idict hbi
      rcases dictUpdate_keys_mem pf.dbname d.undeclaredFields ifields hmem with
        h3 | h3
      · exact buildInsertFields_pk_not_mem d pf hpfpk hpknone dc.fields ifields
          hpkuniq hdbuniq hbf h3
      · exact hund h3
    obtain ⟨hbi, hd2⟩ := insertIntoDb_ok_parts dc d genKey d2 idict pf hpk hnm hins
    refine ⟨hnm, ?_, ?_, ?_⟩
    · rw [hd2]
      exact lookupKey_setKey_self pf.fname genKey d.declaredValues
    · rw [hd2]
    · rw [hd2]
      rfl
  · intro ud d2 hs h
    have hupd := docSave_update_ok dc d genKey d2 ud hs h
    obtain ⟨hbud, hd2⟩ := updateInDb_ok_some dc d d2 ud hupd
    exact ⟨buildUpdateDict_keys dc d d.updatedFields ud hbud,
      fun n f hn hf => buildUpdateDict_mem dc d d.updatedFields ud hbud n f hn hf,
      hd2⟩

/-- Witness for C2 at a concrete two-field document class (primary key
field id unset, int field x set to 7 and dirty, not yet stored): the insert
omits id, and the state after save has the generated key k stored under id,
is marked stored, and has an empty dirty set. -/
theorem c2_save_inserts_then_updates_witness :
    "id" ∉ (([("x", Val.vint 7)] : List (String × Val)).map Prod.fst) ∧
    lookupKey "id"
      ((DocInst.mk [("x", Val.vint 7), ("id", Val.vstr "k")] [] [] true).declaredValues) =
      some (Val.vstr "k") ∧
    (DocInst.mk [("x", Val.vint 7), ("id", Val.vstr "k")] [] [] true).storedInDb = true ∧
    (DocInst.mk [("x", Val.vint 7), ("id", Val.vstr "k")] [] [] true).updatedFields = [] :=
  (c2_save_inserts_then_updates
      ⟨[⟨"id", none, false, true, Val.vnone, FKind.anyF⟩,
        ⟨"x", none, false, false, Val.vint 5, FKind.intF⟩]⟩
      ⟨[("x", Val.vint 7)], ["x"], [], false⟩ (Val.vstr "k")).1
    ⟨"id", none, false, true, Val.vnone, FKind.anyF⟩
    [("x", Val.vint 7)]
    (DocInst.mk [("x", Val.vint 7), ("id", Val.vstr "k")] [] [] true)
    rfl (by decide) (by decide) (by decide) (by decide) (by decide) (by decide)

/-- Claim C6: validation runs before any write, and a validation failure
aborts save(): whenever Document.validate fails on the pre-save state (and
the update path's empty-dirty early return does not preempt it, i.e. the
document is new or has dirty fields), save() surfaces that very error, no
insert or update result is produced, and the document state — declared
values, dirty set and stored_in_db flag included — is exactly what it was
before the call. -/
theorem c6_validation_failure_aborts_save (dc : DocClass) (d : DocInst)
    (genKey : Val) (e : PErr)
    (h : (documentValidate dc d).2 = Except.error e)
    (hw : d.storedInDb = false ∨ d.updatedFields ≠ []) :
    docSave dc d genKey = (d, Except.error e) := by
  have hdv : documentValidate dc d = (d, Except.error e) := by
    rw [documentValidate_eq dc d, h]
  cases hs : d.storedInDb with
  | false =>
      rw [docSave, hs, if_neg Bool.false_ne_true, insertIntoDb, hdv]
  | true =>
      have hne : d.updatedFields ≠ [] := by
        rcases hw with hw | hw
        · rw [hs] at hw
          exact absurd hw (by simp)
        · exact hw
      have hie : ¬ (d.updatedFields.isEmpty = true) := by
        cases hu : d.updatedFields with
        | nil => exact absurd hu hne
        | cons a l => simp
      rw [docSave, if_pos hs, updateInDb, if_neg hie, hdv]

/-- Witness for C6 at a concrete one-field document class (required field f
unset and dirty, not yet stored): validation fails, and save returns the
validation error with the document state unchanged. -/
theorem c6_validation_failure_aborts_save_witness :
    (documentValidate ⟨[⟨"f", none, true, false, Val.vnone, FKind.anyF⟩]⟩
        ⟨[], ["f"], [], false⟩).2 = Except.error PErr.validationError ∧
    docSave ⟨[⟨"f", none, true, false, Val.vnone, FKind.anyF⟩]⟩
        ⟨[], ["f"], [], false⟩ (Val.vstr "k") =
      (⟨[], ["f"], [], false⟩, Except.error PErr.validationError) :=
  ⟨by decide,
    c6_validation_failure_aborts_save
      ⟨[⟨"f", none, true, false, Val.vnone, FKind.anyF⟩]⟩
      ⟨[], ["f"], [], false⟩ (Val.vstr "k") PErr.validationError
      (by decide) (Or.inl rfl)⟩

end Aiorethink
